import Mathlib

/-!
Shallow embedding of the CallAgent orchestration core:
the quality heuristic, the TTL cache, the conversation log and message
router, the task orchestrator, and the task planner, together with
theorems about the behaviour of these operations.
-/

set_option maxHeartbeats 1000000

namespace CallAgent

/-! ### Case-insensitive substring matching (`keyword in critique_result.lower()`)

Python's `in` on strings is substring containment.  We model strings of the
critique as `String` and run containment on the underlying character lists,
lowercasing the haystack exactly as `critique_result.lower()` does. -/

/-- Does the character list `p` occur at the start of `s`? -/
def startsWithCL : List Char → List Char → Bool
  | [], _ => true
  | _ :: _, [] => false
  | a :: p, b :: s => a == b && startsWithCL p s

/-- Does the character list `p` occur contiguously anywhere inside `s`?
Model of Python `p in s` for strings. -/
def containsCL (p : List Char) : List Char → Bool
  | [] => p.isEmpty
  | b :: s => startsWithCL p (b :: s) || containsCL p s

/-- Lowercased character list of a string: model of `s.lower()`. -/
def lowerCL (s : String) : List Char := s.data.map Char.toLower

/-- `keyword in critique_result.lower()` from `AgentHub.evaluate_quality`. -/
def kwMatch (keyword : String) (critique : String) : Bool :=
  containsCL keyword.data (lowerCL critique)

theorem startsWithCL_iff (p s : List Char) :
    startsWithCL p s = true ↔ p <+: s := by
  induction p generalizing s with
  | nil => simp [startsWithCL]
  | cons a p ih =>
    cases s with
    | nil => simp [startsWithCL]
    | cons b s =>
      rw [startsWithCL, Bool.and_eq_true, beq_iff_eq, ih, List.cons_prefix_cons]

theorem containsCL_iff (p s : List Char) :
    containsCL p s = true ↔ p <:+: s := by
  induction s with
  | nil =>
    simp [containsCL, List.isEmpty_iff, List.infix_nil]
  | cons b s ih =>
    simp only [containsCL, Bool.or_eq_true, startsWithCL_iff, ih,
      List.infix_cons_iff]

/-! ### `AgentHub.evaluate_quality` keyword lists and score -/

def positive_keywords : List String :=
  ["excellent", "good", "complete", "accurate", "thorough", "comprehensive"]

def negative_keywords : List String :=
  ["incomplete", "inaccurate", "poor", "missing", "inadequate", "insufficient"]

/-- `sum(1 for keyword in positive_keywords if keyword in critique_result.lower())` -/
def positiveCount (critique : String) : Nat :=
  (positive_keywords.filter (fun k => kwMatch k critique)).length

/-- `sum(1 for keyword in negative_keywords if keyword in critique_result.lower())` -/
def negativeCount (critique : String) : Nat :=
  (negative_keywords.filter (fun k => kwMatch k critique)).length

/-- The score computed by `AgentHub.evaluate_quality`: positive matches over
total matches, `0.5` when no keyword of either list matches. -/
def evaluate_quality_score (critique : String) : ℚ :=
  if positiveCount critique + negativeCount critique = 0 then 1 / 2
  else (positiveCount critique : ℚ)
      / ((positiveCount critique + negativeCount critique : Nat) : ℚ)

example : evaluate_quality_score "good" = 1 := by
  have h1 : positiveCount "good" = 1 := by decide
  have h2 : negativeCount "good" = 0 := by decide
  rw [evaluate_quality_score, h1, h2]
  norm_num

example : evaluate_quality_score "poor" = 0 := by
  have h1 : positiveCount "poor" = 0 := by decide
  have h2 : negativeCount "poor" = 1 := by decide
  rw [evaluate_quality_score, h1, h2]
  norm_num

example : evaluate_quality_score "hello world" = 1 / 2 := by
  have h1 : positiveCount "hello world" = 0 := by decide
  have h2 : negativeCount "hello world" = 0 := by decide
  rw [evaluate_quality_score, h1, h2]
  norm_num

example : evaluate_quality_score "incomplete" = 1 / 2 := by
  have h1 : positiveCount "incomplete" = 1 := by decide
  have h2 : negativeCount "incomplete" = 1 := by decide
  rw [evaluate_quality_score, h1, h2]
  norm_num

/-! ### Infrastructure for reasoning about critiques built from word lists -/

/-- Space-separated join of a list of words, as a critique string. -/
def joinWords : List String → String
  | [] => ""
  | [w] => w
  | w :: ws => w ++ " " ++ joinWords ws

/-- A prefix that avoids the character `c` of a list of the form
`a ++ c :: b` lies entirely inside `a`. -/
theorem prefix_avoid_split {t a b : List Char} {c : Char}
    (h : t <+: a ++ c :: b) (hc : c ∉ t) : t <+: a := by
  induction a generalizing t with
  | nil =>
    cases t with
    | nil => exact List.nil_prefix
    | cons x t' =>
      rw [List.nil_append] at h
      rcases List.cons_prefix_cons.mp h with ⟨rfl, _⟩
      exact absurd (List.mem_cons_self x t') hc
  | cons y a' ih =>
    cases t with
    | nil => exact List.nil_prefix
    | cons x t' =>
      rw [List.cons_append] at h
      rcases List.cons_prefix_cons.mp h with ⟨rfl, h2⟩
      exact List.cons_prefix_cons.mpr
        ⟨rfl, ih h2 (fun hm => hc (List.mem_cons_of_mem _ hm))⟩

/-- An infix that avoids the character `c` of a list of the form
`a ++ c :: b` lies entirely inside `a` or entirely inside `b`. -/
theorem infix_avoid_split {t a b : List Char} {c : Char}
    (h : t <:+: a ++ c :: b) (hc : c ∉ t) : t <:+: a ∨ t <:+: b := by
  induction a generalizing t with
  | nil =>
    rw [List.nil_append] at h
    rcases List.infix_cons_iff.mp h with h1 | h1
    · cases t with
      | nil => exact Or.inl List.nil_infix
      | cons x t' =>
        rcases List.cons_prefix_cons.mp h1 with ⟨rfl, _⟩
        exact absurd (List.mem_cons_self x t') hc
    · exact Or.inr h1
  | cons y a' ih =>
    rw [List.cons_append] at h
    rcases List.infix_cons_iff.mp h with h1 | h1
    · cases t with
      | nil => exact Or.inl List.nil_infix
      | cons x t' =>
        rcases List.cons_prefix_cons.mp h1 with ⟨rfl, h2⟩
        have h3 := prefix_avoid_split h2 (fun hm => hc (List.mem_cons_of_mem _ hm))
        exact Or.inl (List.cons_prefix_cons.mpr ⟨rfl, h3⟩).isInfix
    · rcases ih h1 hc with h2 | h2
      · exact Or.inl (List.infix_cons h2)
      · exact Or.inr h2

theorem joinWords_data_cons (x y : String) (tl : List String) :
    (joinWords (x :: y :: tl)).data = x.data ++ ' ' :: (joinWords (y :: tl)).data := by
  show (x ++ " " ++ joinWords (y :: tl)).data = _
  rw [String.data_append, String.data_append]
  simp

/-- Every word of a word list occurs as an infix of the space-joined string. -/
theorem mem_infix_joinWords {w : String} {ws : List String} (h : w ∈ ws) :
    w.data <:+: (joinWords ws).data := by
  induction ws with
  | nil => cases h
  | cons x rest ih =>
    cases rest with
    | nil =>
      rcases List.mem_singleton.mp h with rfl
      exact List.infix_refl _
    | cons y tl =>
      rw [joinWords_data_cons]
      rcases List.mem_cons.mp h with rfl | hmem
      · exact ⟨[], ' ' :: (joinWords (y :: tl)).data, rfl⟩
      · exact (ih hmem).trans ⟨x.data ++ [' '], [], by simp⟩

/-- A space-free infix of a space-joined word list is an infix of one of
the words. -/
theorem infix_joinWords_split {t : List Char} {ws : List String}
    (h : t <:+: (joinWords ws).data) (hs : ' ' ∉ t) :
    t = [] ∨ ∃ w ∈ ws, t <:+: w.data := by
  induction ws with
  | nil =>
    left
    simpa [joinWords, List.infix_nil] using h
  | cons x rest ih =>
    cases rest with
    | nil => exact Or.inr ⟨x, List.mem_singleton_self x, h⟩
    | cons y tl =>
      rw [joinWords_data_cons] at h
      rcases infix_avoid_split h hs with h1 | h1
      · exact Or.inr ⟨x, List.mem_cons_self x _, h1⟩
      · rcases ih h1 with h2 | ⟨w, hw, h3⟩
        · exact Or.inl h2
        · exact Or.inr ⟨w, List.mem_cons_of_mem _ hw, h3⟩

/-- If lowercasing fixes every word of `ws`, it fixes the joined string. -/
theorem joinWords_lower {ws : List String}
    (h : ∀ w ∈ ws, w.data.map Char.toLower = w.data) :
    (joinWords ws).data.map Char.toLower = (joinWords ws).data := by
  induction ws with
  | nil => rfl
  | cons x rest ih =>
    cases rest with
    | nil => exact h x (List.mem_cons_self x _)
    | cons y tl =>
      rw [joinWords_data_cons, List.map_append, List.map_cons]
      rw [h x (List.mem_cons_self x _),
        ih (fun w hw => h w (List.mem_cons_of_mem _ hw))]
      rfl

/-! ### The spec-side reading of the quality score -/

/-- Keyword `k` occurs as a case-insensitive substring of the critique `c`:
the spec's reading of a keyword match. -/
def SpecKeywordMatch (k c : String) : Prop :=
  k.data.map Char.toLower <:+: c.data.map Char.toLower

instance (k c : String) : Decidable (SpecKeywordMatch k c) :=
  List.decidableInfix _ _

/-- Number of positive keywords matching `c`, as the spec words it. -/
def specPositiveCount (c : String) : Nat :=
  positive_keywords.countP fun k => decide (SpecKeywordMatch k c)

/-- Number of negative keywords matching `c`, as the spec words it. -/
def specNegativeCount (c : String) : Nat :=
  negative_keywords.countP fun k => decide (SpecKeywordMatch k c)

/-- The quality score as the spec describes it: matched positive keywords
over all matched keywords, `0.5` when nothing matches. -/
def specScore (c : String) : ℚ :=
  if specPositiveCount c + specNegativeCount c = 0 then 1 / 2
  else (specPositiveCount c : ℚ)
      / ((specPositiveCount c + specNegativeCount c : Nat) : ℚ)

theorem kwMatch_iff_spec {k : String} (hk : k.data.map Char.toLower = k.data)
    (c : String) : kwMatch k c = true ↔ SpecKeywordMatch k c := by
  rw [kwMatch, containsCL_iff, SpecKeywordMatch, hk]
  exact Iff.rfl

theorem kwMatch_eq_decide {k : String} (hk : k.data.map Char.toLower = k.data)
    (c : String) : kwMatch k c = decide (SpecKeywordMatch k c) := by
  cases hb : kwMatch k c with
  | true => exact (decide_eq_true ((kwMatch_iff_spec hk c).mp hb)).symm
  | false =>
    symm
    rw [decide_eq_false_iff_not]
    intro hs
    rw [(kwMatch_iff_spec hk c).mpr hs] at hb
    cases hb

/-! Keyword facts checked by computation. -/

theorem pos_lower : ∀ w ∈ positive_keywords, w.data.map Char.toLower = w.data := by
  decide

theorem neg_lower : ∀ k ∈ negative_keywords, k.data.map Char.toLower = k.data := by
  decide

/-- The negative keywords with no positive keyword embedded inside them. -/
def clean_negative_keywords : List String :=
  ["poor", "missing", "inadequate", "insufficient"]

theorem cleanNeg_sub : ∀ w ∈ clean_negative_keywords, w ∈ negative_keywords := by
  decide

theorem cleanNeg_lower :
    ∀ w ∈ clean_negative_keywords, w.data.map Char.toLower = w.data := by decide

theorem neg_space : ∀ k ∈ negative_keywords, ' ' ∉ k.data := by decide

theorem pos_space : ∀ k ∈ positive_keywords, ' ' ∉ k.data := by decide

theorem neg_ne_nil : ∀ k ∈ negative_keywords, k.data ≠ [] := by decide

theorem pos_ne_nil : ∀ k ∈ positive_keywords, k.data ≠ [] := by decide

theorem neg_not_infix_pos :
    ∀ k ∈ negative_keywords, ∀ w ∈ positive_keywords, ¬ (k.data <:+: w.data) := by
  decide

theorem pos_not_infix_cleanNeg :
    ∀ k ∈ positive_keywords, ∀ w ∈ clean_negative_keywords,
      ¬ (k.data <:+: w.data) := by
  decide

/-! Generic counting lemmas for joined word lists. -/

/-- No keyword of `ks` matches a critique joined from words of `ws` when no
keyword is an infix of any word. -/
theorem filter_kwMatch_nil (ks ws : List String)
    (hlow : ∀ w ∈ ws, w.data.map Char.toLower = w.data)
    (hspace : ∀ k ∈ ks, ' ' ∉ k.data)
    (hnil : ∀ k ∈ ks, k.data ≠ [])
    (hno : ∀ k ∈ ks, ∀ w ∈ ws, ¬ (k.data <:+: w.data)) :
    ks.filter (fun k => kwMatch k (joinWords ws)) = [] := by
  refine List.filter_eq_nil_iff.mpr ?_
  intro k hk hmatch
  rw [kwMatch, containsCL_iff] at hmatch
  have hjl : (joinWords ws).data.map Char.toLower = (joinWords ws).data :=
    joinWords_lower hlow
  rw [show lowerCL (joinWords ws) = (joinWords ws).data.map Char.toLower from rfl,
    hjl] at hmatch
  rcases infix_joinWords_split hmatch (hspace k hk) with h0 | ⟨w, hw, hinf⟩
  · exact hnil k hk h0
  · exact hno k hk w hw hinf

/-- The first word of a word list is matched by its own keyword entry. -/
theorem filter_kwMatch_pos (ks ws : List String)
    (hlow : ∀ w ∈ ws, w.data.map Char.toLower = w.data)
    (hne : ws ≠ []) (hmem : ∀ w ∈ ws, w ∈ ks) :
    0 < (ks.filter (fun k => kwMatch k (joinWords ws))).length := by
  obtain ⟨w, rest, rfl⟩ := List.exists_cons_of_ne_nil hne
  have hw : w ∈ ks := hmem w (List.mem_cons_self w rest)
  have hmatch : kwMatch w (joinWords (w :: rest)) = true := by
    rw [kwMatch, containsCL_iff]
    have hjl : (joinWords (w :: rest)).data.map Char.toLower =
        (joinWords (w :: rest)).data := joinWords_lower hlow
    rw [show lowerCL (joinWords (w :: rest)) =
        (joinWords (w :: rest)).data.map Char.toLower from rfl, hjl]
    exact mem_infix_joinWords (List.mem_cons_self w rest)
  rw [List.length_pos]
  intro hfil
  have : w ∈ ks.filter (fun k => kwMatch k (joinWords (w :: rest))) :=
    List.mem_filter.mpr ⟨hw, hmatch⟩
  rw [hfil] at this
  cases this

theorem positiveCount_eq_spec (c : String) :
    positiveCount c = specPositiveCount c := by
  rw [positiveCount, specPositiveCount, List.countP_eq_length_filter]
  congr 1
  exact List.filter_congr (fun k hk => kwMatch_eq_decide (pos_lower k hk) c)

theorem negativeCount_eq_spec (c : String) :
    negativeCount c = specNegativeCount c := by
  rw [negativeCount, specNegativeCount, List.countP_eq_length_filter]
  congr 1
  exact List.filter_congr (fun k hk => kwMatch_eq_decide (neg_lower k hk) c)

/-- **C1** (amended).  `evaluate_quality` returns the number of matched
positive keywords divided by the number of matched positive plus matched
negative keywords, matching being case-insensitive substring containment
against the two fixed lists, and `0.5` when neither list matches; the same
critique always yields the same score; a critique containing only words
from the positive list scores `1.0`; a critique containing only the
negative-list words that do not embed a positive keyword (`poor`,
`missing`, `inadequate`, `insufficient`) scores `0.0`.  (The original
claim's "only negative words score 0.0" fails for `incomplete` and
`inaccurate`, which contain the positive keywords `complete` and
`accurate` as substrings.) -/
theorem c1_evaluate_quality_amended :
    (∀ c : String, evaluate_quality_score c = specScore c) ∧
    (∀ c₁ c₂ : String, c₁ = c₂ →
      evaluate_quality_score c₁ = evaluate_quality_score c₂) ∧
    (∀ c : String, positiveCount c = 0 → negativeCount c = 0 →
      evaluate_quality_score c = 1 / 2) ∧
    (∀ ws : List String, ws ≠ [] → (∀ w ∈ ws, w ∈ positive_keywords) →
      evaluate_quality_score (joinWords ws) = 1) ∧
    (∀ ws : List String, ws ≠ [] →
      (∀ w ∈ ws, w ∈ clean_negative_keywords) →
      evaluate_quality_score (joinWords ws) = 0) := by
  refine ⟨?_, ?_, ?_, ?_, ?_⟩
  · intro c
    rw [evaluate_quality_score, specScore, positiveCount_eq_spec,
      negativeCount_eq_spec]
  · intro c₁ c₂ h
    rw [h]
  · intro c hP hN
    rw [evaluate_quality_score, hP, hN]
    norm_num
  · intro ws hne hws
    have hN : negativeCount (joinWords ws) = 0 := by
      rw [negativeCount,
        filter_kwMatch_nil negative_keywords ws
          (fun w hw => pos_lower w (hws w hw)) neg_space neg_ne_nil
          (fun k hk w hw => neg_not_infix_pos k hk w (hws w hw))]
      rfl
    have hP : 0 < positiveCount (joinWords ws) :=
      filter_kwMatch_pos positive_keywords ws
        (fun w hw => pos_lower w (hws w hw)) hne hws
    rw [evaluate_quality_score, hN, Nat.add_zero,
      if_neg (Nat.pos_iff_ne_zero.mp hP)]
    exact div_self (Nat.cast_ne_zero.mpr (Nat.pos_iff_ne_zero.mp hP))
  · intro ws hne hws
    have hP : positiveCount (joinWords ws) = 0 := by
      rw [positiveCount,
        filter_kwMatch_nil positive_keywords ws
          (fun w hw => cleanNeg_lower w (hws w hw)) pos_space pos_ne_nil
          (fun k hk w hw => pos_not_infix_cleanNeg k hk w (hws w hw))]
      rfl
    have hN : 0 < negativeCount (joinWords ws) :=
      filter_kwMatch_pos negative_keywords ws
        (fun w hw => cleanNeg_lower w (hws w hw)) hne
        (fun w hw => cleanNeg_sub w (hws w hw))
    rw [evaluate_quality_score, hP, Nat.zero_add,
      if_neg (Nat.pos_iff_ne_zero.mp hN), Nat.cast_zero, zero_div]

/-- **C1** (counterexample to the claim as stated).  The critique
`"incomplete"` consists of a single word from the negative list, yet
`evaluate_quality` scores it `0.5`, not `0.0`: the positive keyword
`complete` matches inside `incomplete`. -/
theorem c1_counterexample :
    (∀ w ∈ ["incomplete"], w ∈ negative_keywords) ∧
    joinWords ["incomplete"] = "incomplete" ∧
    evaluate_quality_score "incomplete" = 1 / 2 ∧
    (1 / 2 : ℚ) ≠ 0 := by
  refine ⟨by decide, rfl, ?_, by norm_num⟩
  have h1 : positiveCount "incomplete" = 1 := by decide
  have h2 : negativeCount "incomplete" = 1 := by decide
  rw [evaluate_quality_score, h1, h2]
  norm_num

/-- Witness for `c1_evaluate_quality_amended` at concrete critiques. -/
theorem c1_witness :
    evaluate_quality_score (joinWords ["good", "excellent"]) = 1 ∧
    evaluate_quality_score (joinWords ["poor", "missing"]) = 0 ∧
    evaluate_quality_score "nothing to report" = 1 / 2 := by
  refine ⟨?_, ?_, ?_⟩
  · exact c1_evaluate_quality_amended.2.2.2.1 ["good", "excellent"]
      (by decide) (by decide)
  · exact c1_evaluate_quality_amended.2.2.2.2 ["poor", "missing"]
      (by decide) (by decide)
  · exact c1_evaluate_quality_amended.2.2.1 "nothing to report"
      (by decide) (by decide)

/-! ### `ShortTermMemory` (TTL cache, `app/memory/short_term.py`)

The Python dict `self.memory` maps keys to `{'value', 'timestamp', 'ttl'}`
records.  We model it as an association list; timestamps and TTLs are
rational numbers standing for `time.time()` values. -/

structure CacheEntry (α : Type) where
  value : α
  timestamp : ℚ
  ttl : Option ℚ

/-- Lookup a key in the cache map (`key in self.memory` / `self.memory[key]`). -/
def stmLookup {α : Type} : List (String × CacheEntry α) → String →
    Option (CacheEntry α)
  | [], _ => none
  | (k, e) :: rest, key => if k = key then some e else stmLookup rest key

/-- Remove a key from the cache map (`del self.memory[key]`). -/
def stmErase {α : Type} (m : List (String × CacheEntry α)) (key : String) :
    List (String × CacheEntry α) :=
  m.filter fun p => p.1 ≠ key

/-- `ShortTermMemory.add`: store or overwrite unconditionally, recording
the write time. -/
def stm_add {α : Type} (m : List (String × CacheEntry α)) (now : ℚ)
    (key : String) (v : α) (ttl : Option ℚ) : List (String × CacheEntry α) :=
  (key, ⟨v, now, ttl⟩) :: stmErase m key

/-- `ShortTermMemory.get`: return the value when present and not expired;
an expired entry is deleted and `None` is returned. -/
def stm_get {α : Type} (m : List (String × CacheEntry α)) (now : ℚ)
    (key : String) : List (String × CacheEntry α) × Option α :=
  match stmLookup m key with
  | none => (m, none)
  | some e =>
    match e.ttl with
    | none => (m, some e.value)
    | some t => if now - e.timestamp < t then (m, some e.value)
                else (stmErase m key, none)

/-- **C7**.  After `put(key, value, ttl)`, `get(key)` returns the stored
value exactly when the ttl is unset or the elapsed time since the write is
strictly below the ttl; otherwise it returns absent and physically removes
the entry, so a `ttl = 1` entry read two seconds later is absent while a
`ttl = None` entry survives arbitrary delay. -/
theorem c7_ttl_cache {α : Type} (m : List (String × CacheEntry α))
    (key : String) (v : α) (ttl : Option ℚ) (tPut tGet : ℚ) :
    ((stm_get (stm_add m tPut key v ttl) tGet key).2 = some v ↔
      (ttl = none ∨ ∃ t, ttl = some t ∧ tGet - tPut < t)) ∧
    (∀ t, ttl = some t → ¬ (tGet - tPut < t) →
      (stm_get (stm_add m tPut key v ttl) tGet key).2 = none ∧
      stmLookup (stm_get (stm_add m tPut key v ttl) tGet key).1 key = none) ∧
    (stm_get (stm_add m tPut key v (some 1)) (tPut + 2) key).2 = none ∧
    (stm_get (stm_add m tPut key v none) tGet key).2 = some v := by
  have hlook : stmLookup (stm_add m tPut key v ttl) key = some ⟨v, tPut, ttl⟩ := by
    simp [stm_add, stmLookup]
  have herase : stmLookup (stmErase (stm_add m tPut key v ttl) key) key = none := by
    rw [stmErase]
    induction (stm_add m tPut key v ttl) with
    | nil => rfl
    | cons p rest ih =>
      by_cases hp : p.1 = key
      · simpa [hp] using ih
      · simpa [List.filter, hp, stmLookup] using ih
  constructor
  · cases ttl with
    | none => simp [stm_get, hlook]
    | some t =>
      rw [stm_get, hlook]
      by_cases hc : tGet - tPut < t
      · simp [hc]
      · simp [hc]
  · refine ⟨?_, ?_, ?_⟩
    · rintro t rfl hc
      rw [stm_get, hlook]
      simp only [hc, if_false]
      exact ⟨trivial, herase⟩
    · have hl1 : stmLookup (stm_add m tPut key v (some 1)) key =
          some ⟨v, tPut, some 1⟩ := by simp [stm_add, stmLookup]
      rw [stm_get, hl1]
      norm_num
    · have hl2 : stmLookup (stm_add m tPut key v none) key =
          some ⟨v, tPut, none⟩ := by simp [stm_add, stmLookup]
      rw [stm_get, hl2]

/-- Witness for `c7_ttl_cache` at a concrete expired entry. -/
theorem c7_witness :
    (stm_get (stm_add ([] : List (String × CacheEntry Nat)) 0 "k" 7 (some 1))
        2 "k").2 = none ∧
    stmLookup (stm_get (stm_add ([] : List (String × CacheEntry Nat)) 0 "k" 7
        (some 1)) 2 "k").1 "k" = none :=
  (c7_ttl_cache ([] : List (String × CacheEntry Nat)) "k" 7 (some 1) 0 2).2.1
    1 rfl (by norm_num)

/-! ### Conversations table (`DatabaseManager`, `app/database/db_manager.py`)

Rows carry an auto-increment id and a timestamp.  SQLite's
`CURRENT_TIMESTAMP` has one-second granularity, so distinct rows may share
a timestamp; `ORDER BY timestamp DESC` without a secondary key returns
rows of equal timestamp in table-scan (insertion) order, which we model
with a stable descending insertion sort. -/

structure ConvRow where
  rid : Nat
  sender_id : String
  recipient_id : String
  message : String
  timestamp : Nat
deriving DecidableEq, Repr

structure ConvDB where
  rows : List ConvRow
  nextId : Nat
deriving DecidableEq, Repr

/-- `DatabaseManager.record_conversation`: insert a row, returning the
database and the new row id (`cursor.lastrowid`). -/
def record_conversation (db : ConvDB) (now : Nat) (s r m : String) :
    ConvDB × Nat :=
  ({ rows := db.rows ++ [⟨db.nextId, s, r, m, now⟩], nextId := db.nextId + 1 },
    db.nextId)

/-- The WHERE clause of `get_conversation_between`:
`(sender_id = a AND recipient_id = b) OR (sender_id = b AND recipient_id = a)`. -/
def betweenB (a b : String) (r : ConvRow) : Bool :=
  (r.sender_id == a && r.recipient_id == b) ||
  (r.sender_id == b && r.recipient_id == a)

/-- Stable insertion into a timestamp-descending list: a row goes after
every row with timestamp at least its own. -/
def insertTsDesc (r : ConvRow) : List ConvRow → List ConvRow
  | [] => [r]
  | x :: xs => if r.timestamp ≤ x.timestamp then x :: insertTsDesc r xs
               else r :: x :: xs

/-- Stable sort by timestamp descending (model of `ORDER BY timestamp DESC`
over a table scanned in insertion order). -/
def sortTsDesc (l : List ConvRow) : List ConvRow :=
  l.foldl (fun acc r => insertTsDesc r acc) []

/-- `AgentHub.get_conversation_between`: rows between the two agents in
either direction, newest first, limited. -/
def get_conversation_between (db : ConvDB) (a b : String) (limit : Nat) :
    List ConvRow :=
  (sortTsDesc (db.rows.filter (betweenB a b))).take limit

theorem countP_insertTsDesc (p : ConvRow → Bool) (r : ConvRow)
    (l : List ConvRow) :
    (insertTsDesc r l).countP p = l.countP p + (if p r then 1 else 0) := by
  induction l with
  | nil => by_cases hp : p r <;> simp [insertTsDesc, List.countP_cons, hp]
  | cons x xs ih =>
    rw [insertTsDesc]
    by_cases hc : r.timestamp ≤ x.timestamp
    · rw [if_pos hc, List.countP_cons, List.countP_cons, ih]
      omega
    · rw [if_neg hc, List.countP_cons, List.countP_cons]

theorem countP_sortTsDesc (p : ConvRow → Bool) (l : List ConvRow) :
    (sortTsDesc l).countP p = l.countP p := by
  suffices h : ∀ acc, (l.foldl (fun acc r => insertTsDesc r acc) acc).countP p
      = acc.countP p + l.countP p by
    simpa using h []
  induction l with
  | nil => intro acc; simp
  | cons x xs ih =>
    intro acc
    rw [List.foldl_cons, ih, countP_insertTsDesc, List.countP_cons]
    omega

/-- If fewer than `limit` rows of `l` have a timestamp at least `r`'s, the
inserted row survives `take limit`. -/
theorem insertTsDesc_mem_take {r : ConvRow} {l : List ConvRow} {limit : Nat}
    (h : (l.countP fun x => r.timestamp ≤ x.timestamp) < limit) :
    r ∈ (insertTsDesc r l).take limit := by
  induction l generalizing limit with
  | nil =>
    cases limit with
    | zero => exact absurd h (by simp)
    | succ n => exact List.mem_cons_self r _
  | cons x xs ih =>
    rw [List.countP_cons] at h
    rw [insertTsDesc]
    by_cases hc : r.timestamp ≤ x.timestamp
    · rw [if_pos hc]
      cases limit with
      | zero => exact absurd h (by omega)
      | succ n =>
        rw [List.take_succ_cons]
        refine List.mem_cons_of_mem x (ih ?_)
        rw [decide_eq_true hc, if_pos rfl] at h
        omega
    · rw [if_neg hc]
      cases limit with
      | zero => exact absurd h (by omega)
      | succ n => exact List.mem_cons_self r _

theorem sortTsDesc_append_one (xs : List ConvRow) (r : ConvRow) :
    sortTsDesc (xs ++ [r]) = insertTsDesc r (sortTsDesc xs) := by
  rw [sortTsDesc, sortTsDesc, List.foldl_append, List.foldl_cons,
    List.foldl_nil]

theorem betweenB_comm (a b : String) : betweenB a b = betweenB b a := by
  funext r
  rw [betweenB, betweenB, Bool.or_comm]

/-- **C8** (amended).  A row recorded by `record_conversation(a, b, body)`
appears in `get_conversation_between(a, b)` provided fewer than `limit`
already-stored rows between `a` and `b` carry a timestamp at least the new
row's (with a strictly fresher timestamp or fewer than 20 prior rows this
always holds); and the query is symmetric: both argument orders return the
identical row list.  (As stated the claim fails: with `limit` matching
rows in the same second already present, the new row falls past the
`LIMIT` clause.) -/
theorem c8_conversation_roundtrip_amended :
    (∀ (db : ConvDB) (a b m : String) (now limit : Nat),
      ((db.rows.filter (betweenB a b)).countP
          (fun x => now ≤ x.timestamp)) < limit →
      (⟨db.nextId, a, b, m, now⟩ : ConvRow) ∈
        get_conversation_between (record_conversation db now a b m).1
          a b limit) ∧
    (∀ (db : ConvDB) (a b : String) (limit : Nat),
      get_conversation_between db a b limit =
      get_conversation_between db b a limit) := by
  constructor
  · intro db a b m now limit h
    have hfil : ((record_conversation db now a b m).1.rows.filter
        (betweenB a b)) =
        db.rows.filter (betweenB a b) ++ [⟨db.nextId, a, b, m, now⟩] := by
      rw [record_conversation, List.filter_append]
      simp [betweenB]
    rw [get_conversation_between, hfil, sortTsDesc_append_one]
    apply insertTsDesc_mem_take
    rw [countP_sortTsDesc]
    exact h
  · intro db a b limit
    rw [get_conversation_between, get_conversation_between, betweenB_comm]

/-- A conversations table holding 20 rows from `a` to `b`, all in the
same second. -/
def c8FullDB : ConvDB :=
  { rows := (List.range 20).map (fun i => ⟨i, "a", "b", "x", 0⟩), nextId := 20 }

/-- **C8** (counterexample to the claim as stated): when 20 rows between
`a` and `b` were already logged in the same second, the freshly recorded
row is sorted after them and `ORDER BY timestamp DESC LIMIT 20` drops it,
so the round-trip inclusion fails. -/
theorem c8_counterexample :
    (⟨20, "a", "b", "hi", 0⟩ : ConvRow) ∉
      get_conversation_between (record_conversation c8FullDB 0 "a" "b" "hi").1
        "a" "b" 20 := by
  decide

/-- Witness for `c8_conversation_roundtrip_amended` on an empty table. -/
theorem c8_witness :
    (⟨0, "a", "b", "hi", 5⟩ : ConvRow) ∈
      get_conversation_between
        (record_conversation ⟨[], 0⟩ 5 "a" "b" "hi").1 "a" "b" 20 :=
  c8_conversation_roundtrip_amended.1 ⟨[], 0⟩ "a" "b" "hi" 5 20 (by decide)

/-! ### Agent registry and message router

`AgentHub.send_message` and `AgentHub.broadcast_message` are textually
identical in `app/agents/agent_hub.py` and `app/communication/agent_hub.py`;
one model covers both.  A registered agent is its id plus an optional
`receive_message` capability; `none` models an object without a callable
`receive_message` attribute. -/

structure Agent where
  agent_id : String
  receive_message : Option (String → String → String)

structure Hub where
  agents : List Agent
  db : ConvDB

/-- `recipient_id in self.agents` / `self.agents[recipient_id]` on the
registration dict. -/
def lookupAgent : List Agent → String → Option Agent
  | [], _ => none
  | a :: rest, aid => if a.agent_id = aid then some a else lookupAgent rest aid

def hubRecord (h : Hub) (now : Nat) (s r m : String) : Hub :=
  { h with db := (record_conversation h.db now s r m).1 }

/-- `AgentHub.send_message`: record the outgoing message first, then
deliver when the recipient is registered, recording the response; an
unknown recipient yields a not-found string. -/
def send_message (h : Hub) (now : Nat) (sender recipient msg : String) :
    Hub × String :=
  let h1 := hubRecord h now sender recipient msg
  match lookupAgent h1.agents recipient with
  | none => (h1, "Agent " ++ recipient ++ " not found")
  | some ag =>
    match ag.receive_message with
    | none =>
      (h1, "Agent " ++ recipient ++ " does not implement receive_message method")
    | some f =>
      (hubRecord h1 now recipient sender (f sender msg), f sender msg)

/-- **C5**.  `send_message` always appends the outgoing message to the
conversations log first; an unregistered recipient produces the
descriptive not-found string instead of an exception, and in that case no
response row is appended. -/
theorem c5_send_message (h : Hub) (now : Nat) (sender recipient msg : String) :
    (∃ rest, (send_message h now sender recipient msg).1.db.rows =
      h.db.rows ++ (⟨h.db.nextId, sender, recipient, msg, now⟩ : ConvRow)
        :: rest) ∧
    (lookupAgent h.agents recipient = none →
      (send_message h now sender recipient msg).2 =
        "Agent " ++ recipient ++ " not found" ∧
      (send_message h now sender recipient msg).1.db.rows =
        h.db.rows ++ [⟨h.db.nextId, sender, recipient, msg, now⟩]) := by
  constructor
  · rcases hl : lookupAgent h.agents recipient with _ | ag
    · exact ⟨[], by simp [send_message, hubRecord, record_conversation, hl]⟩
    · rcases hr : ag.receive_message with _ | f
      · exact ⟨[], by simp [send_message, hubRecord, record_conversation, hl, hr]⟩
      · refine ⟨[⟨h.db.nextId + 1, recipient, sender, f sender msg, now⟩], ?_⟩
        simp [send_message, hubRecord, record_conversation, hl, hr]
  · intro hl
    constructor
    · simp [send_message, hubRecord, hl]
    · simp [send_message, hubRecord, record_conversation, hl]

/-- Witness for `c5_send_message`: a hub with no registered agents. -/
theorem c5_witness :
    (send_message ⟨[], ⟨[], 0⟩⟩ 3 "s" "r" "hello").2 =
      "Agent " ++ "r" ++ " not found" ∧
    (send_message ⟨[], ⟨[], 0⟩⟩ 3 "s" "r" "hello").1.db.rows =
      [⟨0, "s", "r", "hello", 3⟩] := by
  have h := (c5_send_message ⟨[], ⟨[], 0⟩⟩ 3 "s" "r" "hello").2 rfl
  exact ⟨h.1, by rw [h.2]; rfl⟩

/-- Response an agent's `receive_message` gives to `(sender, msg)`;
irrelevant filler for agents without the capability (they contribute no
entry to broadcast results). -/
def agentResponse (sender msg : String) (a : Agent) : String :=
  match a.receive_message with
  | some f => f sender msg
  | none => ""

/-- Loop body of `AgentHub.broadcast_message` over the registered agents. -/
def broadcastStep (now : Nat) (sender msg : String) (ex : List String)
    (acc : Hub × List (String × String)) (ag : Agent) :
    Hub × List (String × String) :=
  if ag.agent_id ∈ ex then acc
  else
    let h1 := hubRecord acc.1 now sender ag.agent_id msg
    match ag.receive_message with
    | none => (h1, acc.2)
    | some f =>
      (hubRecord h1 now ag.agent_id sender (f sender msg),
        acc.2 ++ [(ag.agent_id, f sender msg)])

/-- `AgentHub.broadcast_message`.  Returns the final hub, the response map
in iteration order, and the exclusion list as the function leaves it
(Python appends the sender to the caller's list in place). -/
def broadcast_message (h : Hub) (now : Nat) (sender msg : String)
    (exclude_ids : List String) :
    Hub × List (String × String) × List String :=
  let ex := if sender ∈ exclude_ids then exclude_ids
            else exclude_ids ++ [sender]
  let final := h.agents.foldl (broadcastStep now sender msg ex) (h, [])
  (final.1, final.2, ex)

theorem broadcast_fold_snd (now : Nat) (sender msg : String)
    (ex : List String) (l : List Agent) (hub0 : Hub)
    (acc : List (String × String)) :
    (l.foldl (broadcastStep now sender msg ex) (hub0, acc)).2 =
      acc ++ (l.filter
          (fun a => !decide (a.agent_id ∈ ex) && a.receive_message.isSome)).map
        (fun a => (a.agent_id, agentResponse sender msg a)) := by
  induction l generalizing hub0 acc with
  | nil => simp
  | cons ag rest ih =>
    rw [List.foldl_cons]
    by_cases hmem : ag.agent_id ∈ ex
    · rw [show broadcastStep now sender msg ex (hub0, acc) ag = (hub0, acc) from
        if_pos hmem]
      rw [ih]
      simp [List.filter_cons, hmem]
    · rcases hr : ag.receive_message with _ | f
      · rw [show broadcastStep now sender msg ex (hub0, acc) ag =
            (hubRecord hub0 now sender ag.agent_id msg, acc) from by
          rw [broadcastStep, if_neg hmem, hr]]
        rw [ih]
        simp [List.filter_cons, hmem, hr]
      · rw [show broadcastStep now sender msg ex (hub0, acc) ag =
            (hubRecord (hubRecord hub0 now sender ag.agent_id msg) now
              ag.agent_id sender (f sender msg),
             acc ++ [(ag.agent_id, f sender msg)]) from by
          rw [broadcastStep, if_neg hmem, hr]]
        rw [ih]
        simp [List.filter_cons, hmem, hr, agentResponse]

/-- **C6**.  `broadcast_message` returns exactly one response per
registered agent that is neither the sender nor excluded and that
implements `receive_message`, each paired with that agent's own response;
an agent lacking the capability (a failed delivery) only loses its own
entry: it does not abort the remaining recipients, so the map of the
others is still returned. -/
theorem c6_broadcast (h : Hub) (now : Nat) (sender msg : String)
    (exclude_ids : List String) :
    (broadcast_message h now sender msg exclude_ids).2.1 =
      (h.agents.filter (fun a =>
          !decide (a.agent_id ∈ (if sender ∈ exclude_ids then exclude_ids
            else exclude_ids ++ [sender])) && a.receive_message.isSome)).map
        (fun a => (a.agent_id, agentResponse sender msg a)) ∧
    (∀ a ∈ h.agents, a.agent_id ∉ exclude_ids → a.agent_id ≠ sender →
      a.receive_message.isSome = true →
      (a.agent_id, agentResponse sender msg a) ∈
        (broadcast_message h now sender msg exclude_ids).2.1) := by
  have hmain : (broadcast_message h now sender msg exclude_ids).2.1 =
      (h.agents.filter (fun a =>
          !decide (a.agent_id ∈ (if sender ∈ exclude_ids then exclude_ids
            else exclude_ids ++ [sender])) && a.receive_message.isSome)).map
        (fun a => (a.agent_id, agentResponse sender msg a)) := by
    rw [broadcast_message]
    exact broadcast_fold_snd now sender msg _ h.agents h []
  refine ⟨hmain, ?_⟩
  intro a ha hnex hnsend hsome
  rw [hmain]
  have hnotex : a.agent_id ∉ (if sender ∈ exclude_ids then exclude_ids
      else exclude_ids ++ [sender]) := by
    by_cases hs : sender ∈ exclude_ids
    · rw [if_pos hs]; exact hnex
    · rw [if_neg hs]
      intro hmem
      rcases List.mem_append.mp hmem with hmem | hmem
      · exact hnex hmem
      · exact hnsend (List.mem_singleton.mp hmem)
  exact List.mem_map_of_mem _
    (List.mem_filter.mpr ⟨ha, by simp [hnotex, hsome]⟩)

/-- Witness for `c6_broadcast`: two agents, one of which cannot receive,
still produces the other's response. -/
theorem c6_witness :
    ("b", agentResponse "s" "ping" ⟨"b", some (fun _ m => "got " ++ m)⟩) ∈
      (broadcast_message
        ⟨[⟨"a", none⟩, ⟨"b", some (fun _ m => "got " ++ m)⟩], ⟨[], 0⟩⟩
        0 "s" "ping" []).2.1 :=
  (c6_broadcast ⟨[⟨"a", none⟩, ⟨"b", some (fun _ m => "got " ++ m)⟩], ⟨[], 0⟩⟩
      0 "s" "ping" []).2 ⟨"b", some (fun _ m => "got " ++ m)⟩
    (by simp) (by simp) (by simp) rfl

/-- **C10**.  When the caller's `exclude_ids` does not contain the sender,
`broadcast_message` appends the sender to that very list, so the list the
caller observes afterwards differs from the one passed in. -/
theorem c10_broadcast_mutates_exclude (h : Hub) (now : Nat)
    (sender msg : String) (exclude_ids : List String)
    (hs : sender ∉ exclude_ids) :
    (broadcast_message h now sender msg exclude_ids).2.2 =
      exclude_ids ++ [sender] ∧
    (broadcast_message h now sender msg exclude_ids).2.2 ≠ exclude_ids := by
  have hex : (broadcast_message h now sender msg exclude_ids).2.2 =
      exclude_ids ++ [sender] := by
    rw [broadcast_message]
    exact if_neg hs
  refine ⟨hex, ?_⟩
  rw [hex]
  intro hEq
  have := congrArg List.length hEq
  simp at this

/-- Witness for `c10_broadcast_mutates_exclude`. -/
theorem c10_witness :
    (broadcast_message ⟨[], ⟨[], 0⟩⟩ 0 "s" "m" ["x"]).2.2 = ["x", "s"] ∧
    (broadcast_message ⟨[], ⟨[], 0⟩⟩ 0 "s" "m" ["x"]).2.2 ≠ ["x"] :=
  c10_broadcast_mutates_exclude ⟨[], ⟨[], 0⟩⟩ 0 "s" "m" ["x"] (by decide)

/-! ### Association-list helpers (Python dict semantics)

`alookup` is first-match lookup; `aset` is dict assignment (replace the
binding in place, else append); `aupd` applies a function to the bound
value. -/

def alookup {κ β : Type} [DecidableEq κ] : List (κ × β) → κ → Option β
  | [], _ => none
  | (k, v) :: rest, key => if k = key then some v else alookup rest key

def aset {κ β : Type} [DecidableEq κ] : List (κ × β) → κ → β → List (κ × β)
  | [], k, v => [(k, v)]
  | (k', v') :: rest, k, v =>
    if k' = k then (k, v) :: rest else (k', v') :: aset rest k v

def aupd {κ β : Type} [DecidableEq κ] : List (κ × β) → κ → (β → β) →
    List (κ × β)
  | [], _, _ => []
  | (k', v') :: rest, k, f =>
    if k' = k then (k', f v') :: aupd rest k f
    else (k', v') :: aupd rest k f

theorem alookup_aset_self {κ β : Type} [DecidableEq κ]
    (l : List (κ × β)) (k : κ) (v : β) : alookup (aset l k v) k = some v := by
  induction l with
  | nil => simp [aset, alookup]
  | cons p rest ih =>
    rcases p with ⟨k', v'⟩
    rw [aset]
    by_cases hk : k' = k
    · rw [if_pos hk, alookup, if_pos rfl]
    · rw [if_neg hk, alookup, if_neg hk, ih]

theorem alookup_aupd_self {κ β : Type} [DecidableEq κ]
    (l : List (κ × β)) (k : κ) (f : β → β) :
    alookup (aupd l k f) k = (alookup l k).map f := by
  induction l with
  | nil => rfl
  | cons p rest ih =>
    rcases p with ⟨k', v'⟩
    by_cases hk : k' = k
    · rw [aupd, if_pos hk, alookup, if_pos hk, alookup, if_pos hk]
      rfl
    · rw [aupd, if_neg hk, alookup, if_neg hk, alookup, if_neg hk, ih]

theorem alookup_aupd_ne {κ β : Type} [DecidableEq κ]
    (l : List (κ × β)) (k k' : κ) (f : β → β) (h : k ≠ k') :
    alookup (aupd l k f) k' = alookup l k' := by
  induction l with
  | nil => rfl
  | cons p rest ih =>
    rcases p with ⟨k0, v0⟩
    by_cases hk : k0 = k
    · rw [aupd, if_pos hk]
      by_cases hk' : k0 = k'
      · exact absurd (hk.symm.trans hk') h
      · rw [alookup, if_neg hk', alookup, if_neg hk', ih]
    · rw [aupd, if_neg hk]
      by_cases hk' : k0 = k'
      · rw [alookup, if_pos hk', alookup, if_pos hk']
      · rw [alookup, if_neg hk', alookup, if_neg hk', ih]

/-! ### Task orchestrator state (`AgentHub` in `app/agents/agent_hub.py`)

The planner side effects inside `execute_*` call
`task_planner.decompose_task` with the hub's task id, which is never a key
of the planner's own task map (the planner generated a fresh uuid in
`create_task`), so those calls return `[]` without mutating anything; they
are therefore not threaded through this model.  `uuid` is a counter
standing for `uuid.uuid4()` freshness. -/

inductive AgentState where
  | IDLE | RUNNING | FINISHED | ERROR
deriving DecidableEq, Repr

inductive AgentType where
  | base | research | planning | execution | critic
deriving DecidableEq, Repr

structure TaskRec where
  description : String
  state : AgentState
  created_at : Nat
  results : List (AgentType × String)
  quality_score : Option ℚ
  iterations : Nat

structure QualityAssessment where
  score : ℚ
  critique : String
  timestamp : Nat

structure DiscussionMsg where
  sender_id : String
  recipient_id : String
  message : String
  timestamp : Nat

structure DiscussionRec where
  task_id : String
  prompt : String
  messages : List DiscussionMsg
  started_at : Nat
  active : Bool
  concluded_at : Option Nat

structure HubState where
  agents : List Agent
  db : ConvDB
  managed : List (AgentType × Agent)
  tasks : List (String × TaskRec)
  quality_assessments : List (String × QualityAssessment)
  discussions : List (String × DiscussionRec)
  uuid : Nat

/-- Python `admin_id or "system"`: `None` and the empty string are falsy. -/
def pyOr (s : Option String) : String :=
  match s with
  | none => "system"
  | some v => if v = "" then "system" else v

/-- `self.send_message(...)` on the hub state; the router never modifies
the registry (see `send_message`, which only writes to the database), so
only the `db` field changes. -/
def HubState.sendMessage (st : HubState) (now : Nat) (s r m : String) :
    HubState × String :=
  ({ st with db := (send_message ⟨st.agents, st.db⟩ now s r m).1.db },
    (send_message ⟨st.agents, st.db⟩ now s r m).2)

/-- `AgentHub.get_agent_by_type`. -/
def get_agent_by_type (st : HubState) (ty : AgentType) : Option Agent :=
  alookup st.managed ty

/-- `AgentHub.create_task` (the fresh uuid is passed in as `tid`). -/
def create_task (st : HubState) (now : Nat) (tid : String) (desc : String) :
    HubState × String :=
  ({ st with tasks := aset st.tasks tid ⟨desc, .IDLE, now, [], none, 0⟩ }, tid)

/-- `AgentHub.execute_research`. -/
def execute_research (st : HubState) (now : Nat) (desc : String)
    (adminId : Option String) : HubState × String :=
  match get_agent_by_type st .research with
  | none => (st, "Research agent not available")
  | some ag =>
    st.sendMessage now (pyOr adminId) ag.agent_id ("Research task: " ++ desc)

/-- `AgentHub.execute_planning`. -/
def execute_planning (st : HubState) (now : Nat) (desc : String)
    (adminId : Option String) : HubState × String :=
  match get_agent_by_type st .planning with
  | none => (st, "Planning agent not available")
  | some ag =>
    st.sendMessage now (pyOr adminId) ag.agent_id ("Plan task: " ++ desc)

/-- `AgentHub.execute_execution`. -/
def execute_execution (st : HubState) (now : Nat) (desc : String)
    (adminId : Option String) : HubState × String :=
  match get_agent_by_type st .execution with
  | none => (st, "Execution agent not available")
  | some ag =>
    st.sendMessage now (pyOr adminId) ag.agent_id ("Execute task: " ++ desc)

/-- `AgentHub.execute_critique`. -/
def execute_critique (st : HubState) (now : Nat) (tid : String)
    (rRes pRes eRes : String) (adminId : Option String) : HubState × String :=
  match get_agent_by_type st .critic with
  | none => (st, "Critic agent not available")
  | some ag =>
    st.sendMessage now (pyOr adminId) ag.agent_id
      ("Critique the following task results:\n\n" ++
       "Task ID: " ++ tid ++ "\n" ++
       "Research Results:\n" ++ rRes ++ "\n\n" ++
       "Planning Results:\n" ++ pRes ++ "\n\n" ++
       "Execution Results:\n" ++ eRes ++ "\n\n" ++
       "Please evaluate the quality, completeness, and accuracy of these results.")

/-- `AgentHub.evaluate_quality`: compute the keyword score and store the
assessment. -/
def evaluate_quality (st : HubState) (now : Nat) (tid critique : String) :
    HubState × ℚ :=
  let score := evaluate_quality_score critique
  ({ st with quality_assessments := aset st.quality_assessments tid ⟨score, critique, now⟩ }, score)

/-! The body of `AgentHub.execute_task` after the existence check, split
into one definition per Python statement.  The `asyncio.gather`ed worker
coroutines contain no awaits, so they run back to back in creation order
(research, planning, execution), then critique runs sequentially. -/

/-- `self.tasks[task_id]["state"] = RUNNING; ...["iterations"] += 1`. -/
def coreSt1 (st : HubState) (tid : String) (t0 : TaskRec) : HubState :=
  let t1 := { t0 with state := AgentState.RUNNING, iterations := t0.iterations + 1 }
  { st with tasks := aset st.tasks tid t1 }

/-- Research dispatch and its response. -/
def coreSt2 (st : HubState) (now : Nat) (tid : String) (adminId : Option String)
    (t0 : TaskRec) : HubState :=
  (execute_research (coreSt1 st tid t0) now t0.description adminId).1

def coreR (st : HubState) (now : Nat) (tid : String) (adminId : Option String)
    (t0 : TaskRec) : String :=
  (execute_research (coreSt1 st tid t0) now t0.description adminId).2

/-- Planning dispatch and its response. -/
def coreSt3 (st : HubState) (now : Nat) (tid : String) (adminId : Option String)
    (t0 : TaskRec) : HubState :=
  (execute_planning (coreSt2 st now tid adminId t0) now t0.description adminId).1

def coreP (st : HubState) (now : Nat) (tid : String) (adminId : Option String)
    (t0 : TaskRec) : String :=
  (execute_planning (coreSt2 st now tid adminId t0) now t0.description adminId).2

/-- Execution dispatch and its response. -/
def coreSt4 (st : HubState) (now : Nat) (tid : String) (adminId : Option String)
    (t0 : TaskRec) : HubState :=
  (execute_execution (coreSt3 st now tid adminId t0) now t0.description adminId).1

def coreE (st : HubState) (now : Nat) (tid : String) (adminId : Option String)
    (t0 : TaskRec) : String :=
  (execute_execution (coreSt3 st now tid adminId t0) now t0.description adminId).2

/-- `self.tasks[task_id]["results"] = {RESEARCH: ..., PLANNING: ...,
EXECUTION: ...}`. -/
def coreBase3 (st : HubState) (now : Nat) (tid : String)
    (adminId : Option String) (t0 : TaskRec) : List (AgentType × String) :=
  [(.research, coreR st now tid adminId t0),
   (.planning, coreP st now tid adminId t0),
   (.execution, coreE st now tid adminId t0)]

def coreSt5 (st : HubState) (now : Nat) (tid : String) (adminId : Option String)
    (t0 : TaskRec) : HubState :=
  { coreSt4 st now tid adminId t0 with
    tasks := aupd (coreSt4 st now tid adminId t0).tasks tid (fun t =>
      { t with results := coreBase3 st now tid adminId t0 }) }

/-- Critique dispatch and its response. -/
def coreSt6 (st : HubState) (now : Nat) (tid : String) (adminId : Option String)
    (t0 : TaskRec) : HubState :=
  (execute_critique (coreSt5 st now tid adminId t0) now tid
    (coreR st now tid adminId t0) (coreP st now tid adminId t0)
    (coreE st now tid adminId t0) adminId).1

def coreC (st : HubState) (now : Nat) (tid : String) (adminId : Option String)
    (t0 : TaskRec) : String :=
  (execute_critique (coreSt5 st now tid adminId t0) now tid
    (coreR st now tid adminId t0) (coreP st now tid adminId t0)
    (coreE st now tid adminId t0) adminId).2

/-- `self.tasks[task_id]["results"][CRITIC] = critique_result`. -/
def coreSt7 (st : HubState) (now : Nat) (tid : String) (adminId : Option String)
    (t0 : TaskRec) : HubState :=
  { coreSt6 st now tid adminId t0 with
    tasks := aupd (coreSt6 st now tid adminId t0).tasks tid (fun t =>
      { t with results := aset t.results .critic (coreC st now tid adminId t0) }) }

/-- `quality_score = self.evaluate_quality(task_id, critique_result)`. -/
def coreSt8 (st : HubState) (now : Nat) (tid : String) (adminId : Option String)
    (t0 : TaskRec) : HubState :=
  (evaluate_quality (coreSt7 st now tid adminId t0) now tid
    (coreC st now tid adminId t0)).1

/-- `self.tasks[task_id]["quality_score"] = quality_score`. -/
def coreSt9 (st : HubState) (now : Nat) (tid : String) (adminId : Option String)
    (t0 : TaskRec) : HubState :=
  let score := (evaluate_quality (coreSt7 st now tid adminId t0) now tid
    (coreC st now tid adminId t0)).2
  { coreSt8 st now tid adminId t0 with
    tasks := aupd (coreSt8 st now tid adminId t0).tasks tid (fun t =>
      { t with quality_score := some score }) }

/-- `self.tasks[task_id]["state"] = FINISHED`. -/
def coreSt10 (st : HubState) (now : Nat) (tid : String) (adminId : Option String)
    (t0 : TaskRec) : HubState :=
  { coreSt9 st now tid adminId t0 with
    tasks := aupd (coreSt9 st now tid adminId t0).tasks tid (fun t =>
      { t with state := .FINISHED }) }

/-- `AgentHub.execute_task` after the existence check; returns
`self.tasks[task_id]["results"]`. -/
def execute_task_core (st : HubState) (now : Nat) (tid : String)
    (adminId : Option String) (t0 : TaskRec) :
    HubState × List (AgentType × String) :=
  (coreSt10 st now tid adminId t0,
   ((alookup (coreSt10 st now tid adminId t0).tasks tid).map
      (fun t => t.results)).getD [])

/-- `AgentHub.execute_task`: a missing task id yields the error map, not an
exception. -/
def execute_task (st : HubState) (now : Nat) (tid : String)
    (adminId : Option String) :
    HubState × Except String (List (AgentType × String)) :=
  match alookup st.tasks tid with
  | none => (st, .error ("Task " ++ tid ++ " not found"))
  | some t0 =>
    ((execute_task_core st now tid adminId t0).1,
     .ok (execute_task_core st now tid adminId t0).2)

/-! ### Frame and response lemmas for the orchestrator -/

theorem lookupAgent_mem {l : List Agent} {aid : String} {ag : Agent}
    (h : lookupAgent l aid = some ag) : ag ∈ l := by
  induction l with
  | nil => cases h
  | cons a rest ih =>
    rw [lookupAgent] at h
    by_cases ha : a.agent_id = aid
    · rw [if_pos ha] at h
      cases Option.some_inj.mp h
      exact List.mem_cons_self _ _
    · rw [if_neg ha] at h
      exact List.mem_cons_of_mem a (ih h)

theorem string_append_ne_empty (s t : String) (h : s.data ≠ []) :
    (s ++ t) ≠ "" := by
  intro hEq
  have h2 := congrArg String.data hEq
  rw [String.data_append] at h2
  exact h (List.append_eq_nil.mp h2).1

/-- Every registered agent's `receive_message` returns non-empty strings.
This holds for all of the repository's agent classes: every branch of every
`process_message` (`BaseAgent`, `ResearchAgent`, `PlanningAgent`,
`ExecutionAgent`, `CriticAgent`, and the `SpecializedAgent` variants)
returns a string with a non-empty literal prefix; see
`researchProcessMessage_ne_empty` and friends below. -/
def NonEmptyResponders (agents : List Agent) : Prop :=
  ∀ a ∈ agents, ∀ f, a.receive_message = some f → ∀ s m, f s m ≠ ""

theorem send_message_resp_ne (h : Hub) (now : Nat) (s r m : String)
    (hwf : NonEmptyResponders h.agents) :
    (send_message h now s r m).2 ≠ "" := by
  simp only [send_message, hubRecord]
  rcases hl : lookupAgent h.agents r with _ | ag
  · dsimp only
    exact string_append_ne_empty "Agent " (r ++ " not found") (by decide)
  · dsimp only
    rcases hr : ag.receive_message with _ | f
    · dsimp only
      exact string_append_ne_empty "Agent "
        (r ++ " does not implement receive_message method") (by decide)
    · dsimp only
      exact hwf ag (lookupAgent_mem hl) f hr s m

theorem execute_research_tasks (st : HubState) (now : Nat) (d : String)
    (a : Option String) : (execute_research st now d a).1.tasks = st.tasks := by
  rw [execute_research]
  rcases get_agent_by_type st .research with _ | ag <;> rfl

theorem execute_planning_tasks (st : HubState) (now : Nat) (d : String)
    (a : Option String) : (execute_planning st now d a).1.tasks = st.tasks := by
  rw [execute_planning]
  rcases get_agent_by_type st .planning with _ | ag <;> rfl

theorem execute_execution_tasks (st : HubState) (now : Nat) (d : String)
    (a : Option String) : (execute_execution st now d a).1.tasks = st.tasks := by
  rw [execute_execution]
  rcases get_agent_by_type st .execution with _ | ag <;> rfl

theorem execute_critique_tasks (st : HubState) (now : Nat) (tid r p e : String)
    (a : Option String) :
    (execute_critique st now tid r p e a).1.tasks = st.tasks := by
  rw [execute_critique]
  rcases get_agent_by_type st .critic with _ | ag <;> rfl

theorem execute_research_agents (st : HubState) (now : Nat) (d : String)
    (a : Option String) : (execute_research st now d a).1.agents = st.agents := by
  rw [execute_research]
  rcases get_agent_by_type st .research with _ | ag <;> rfl

theorem execute_planning_agents (st : HubState) (now : Nat) (d : String)
    (a : Option String) : (execute_planning st now d a).1.agents = st.agents := by
  rw [execute_planning]
  rcases get_agent_by_type st .planning with _ | ag <;> rfl

theorem execute_execution_agents (st : HubState) (now : Nat) (d : String)
    (a : Option String) :
    (execute_execution st now d a).1.agents = st.agents := by
  rw [execute_execution]
  rcases get_agent_by_type st .execution with _ | ag <;> rfl

theorem execute_critique_agents (st : HubState) (now : Nat) (tid r p e : String)
    (a : Option String) :
    (execute_critique st now tid r p e a).1.agents = st.agents := by
  rw [execute_critique]
  rcases get_agent_by_type st .critic with _ | ag <;> rfl

theorem execute_research_managed (st : HubState) (now : Nat) (d : String)
    (a : Option String) : (execute_research st now d a).1.managed = st.managed := by
  rw [execute_research]
  rcases get_agent_by_type st .research with _ | ag <;> rfl

theorem execute_planning_managed (st : HubState) (now : Nat) (d : String)
    (a : Option String) : (execute_planning st now d a).1.managed = st.managed := by
  rw [execute_planning]
  rcases get_agent_by_type st .planning with _ | ag <;> rfl

theorem execute_execution_managed (st : HubState) (now : Nat) (d : String)
    (a : Option String) :
    (execute_execution st now d a).1.managed = st.managed := by
  rw [execute_execution]
  rcases get_agent_by_type st .execution with _ | ag <;> rfl

theorem execute_critique_managed (st : HubState) (now : Nat) (tid r p e : String)
    (a : Option String) :
    (execute_critique st now tid r p e a).1.managed = st.managed := by
  rw [execute_critique]
  rcases get_agent_by_type st .critic with _ | ag <;> rfl

theorem execute_research_resp_ne (st : HubState) (now : Nat) (d : String)
    (a : Option String) (hwf : NonEmptyResponders st.agents) :
    (execute_research st now d a).2 ≠ "" := by
  rw [execute_research]
  rcases get_agent_by_type st .research with _ | ag
  · dsimp only
    decide
  · dsimp only
    exact send_message_resp_ne ⟨st.agents, st.db⟩ now _ _ _ hwf

theorem execute_planning_resp_ne (st : HubState) (now : Nat) (d : String)
    (a : Option String) (hwf : NonEmptyResponders st.agents) :
    (execute_planning st now d a).2 ≠ "" := by
  rw [execute_planning]
  rcases get_agent_by_type st .planning with _ | ag
  · dsimp only
    decide
  · dsimp only
    exact send_message_resp_ne ⟨st.agents, st.db⟩ now _ _ _ hwf

theorem execute_execution_resp_ne (st : HubState) (now : Nat) (d : String)
    (a : Option String) (hwf : NonEmptyResponders st.agents) :
    (execute_execution st now d a).2 ≠ "" := by
  rw [execute_execution]
  rcases get_agent_by_type st .execution with _ | ag
  · dsimp only
    decide
  · dsimp only
    exact send_message_resp_ne ⟨st.agents, st.db⟩ now _ _ _ hwf

theorem execute_critique_resp_ne (st : HubState) (now : Nat) (tid r p e : String)
    (a : Option String) (hwf : NonEmptyResponders st.agents) :
    (execute_critique st now tid r p e a).2 ≠ "" := by
  rw [execute_critique]
  rcases get_agent_by_type st .critic with _ | ag
  · dsimp only
    decide
  · dsimp only
    exact send_message_resp_ne ⟨st.agents, st.db⟩ now _ _ _ hwf

theorem evaluate_quality_score_bounds (c : String) :
    0 ≤ evaluate_quality_score c ∧ evaluate_quality_score c ≤ 1 := by
  rw [evaluate_quality_score]
  by_cases h : positiveCount c + negativeCount c = 0
  · rw [if_pos h]
    norm_num
  · rw [if_neg h]
    have hpos : (0 : ℚ) < ((positiveCount c + negativeCount c : Nat) : ℚ) := by
      exact_mod_cast Nat.pos_of_ne_zero h
    constructor
    · exact div_nonneg (by exact_mod_cast Nat.zero_le _) (le_of_lt hpos)
    · rw [div_le_one hpos]
      exact_mod_cast Nat.le_add_right _ _

theorem coreSt4_tasks (st : HubState) (now : Nat) (tid : String)
    (adminId : Option String) (t0 : TaskRec) :
    (coreSt4 st now tid adminId t0).tasks = (coreSt1 st tid t0).tasks := by
  rw [coreSt4, execute_execution_tasks, coreSt3, execute_planning_tasks,
    coreSt2, execute_research_tasks]

theorem coreSt4_agents (st : HubState) (now : Nat) (tid : String)
    (adminId : Option String) (t0 : TaskRec) :
    (coreSt4 st now tid adminId t0).agents = st.agents := by
  rw [coreSt4, execute_execution_agents, coreSt3, execute_planning_agents,
    coreSt2, execute_research_agents]
  rfl

/-- The task record as `execute_task` leaves it. -/
def finalTask (st : HubState) (now : Nat) (tid : String)
    (adminId : Option String) (t0 : TaskRec) : TaskRec :=
  { t0 with
    state := .FINISHED
    iterations := t0.iterations + 1
    results := coreBase3 st now tid adminId t0 ++
      [(.critic, coreC st now tid adminId t0)]
    quality_score := some
      (evaluate_quality_score (coreC st now tid adminId t0)) }

/-- The task record midway, after the RUNNING transition. -/
def runningTask (t0 : TaskRec) : TaskRec :=
  { t0 with state := AgentState.RUNNING, iterations := t0.iterations + 1 }

def runningTaskR (st : HubState) (now : Nat) (tid : String)
    (adminId : Option String) (t0 : TaskRec) : TaskRec :=
  { runningTask t0 with results := coreBase3 st now tid adminId t0 }

def runningTaskRC (st : HubState) (now : Nat) (tid : String)
    (adminId : Option String) (t0 : TaskRec) : TaskRec :=
  { runningTask t0 with
    results := coreBase3 st now tid adminId t0 ++
      [(.critic, coreC st now tid adminId t0)] }

def scoredTask (st : HubState) (now : Nat) (tid : String)
    (adminId : Option String) (t0 : TaskRec) : TaskRec :=
  { runningTaskRC st now tid adminId t0 with
    quality_score := some (evaluate_quality_score (coreC st now tid adminId t0)) }

/-- After the whole `execute_task` body, the task record holds the final
state, the incremented iteration count, the four results, and the score. -/
theorem coreSt10_tasks_lookup (st : HubState) (now : Nat) (tid : String)
    (adminId : Option String) (t0 : TaskRec) :
    alookup (coreSt10 st now tid adminId t0).tasks tid =
      some (finalTask st now tid adminId t0) := by
  have h1 : alookup (coreSt1 st tid t0).tasks tid = some (runningTask t0) :=
    alookup_aset_self _ _ _
  have h4 : alookup (coreSt4 st now tid adminId t0).tasks tid =
      some (runningTask t0) := by
    rw [coreSt4_tasks]
    exact h1
  have h5 : alookup (coreSt5 st now tid adminId t0).tasks tid =
      some (runningTaskR st now tid adminId t0) := by
    simp only [coreSt5]
    rw [alookup_aupd_self, h4]
    rfl
  have h6 : alookup (coreSt6 st now tid adminId t0).tasks tid =
      some (runningTaskR st now tid adminId t0) := by
    rw [coreSt6, execute_critique_tasks]
    exact h5
  have h7 : alookup (coreSt7 st now tid adminId t0).tasks tid =
      some (runningTaskRC st now tid adminId t0) := by
    simp only [coreSt7]
    rw [alookup_aupd_self, h6]
    rfl
  have h8 : alookup (coreSt8 st now tid adminId t0).tasks tid =
      some (runningTaskRC st now tid adminId t0) := h7
  have h9 : alookup (coreSt9 st now tid adminId t0).tasks tid =
      some (scoredTask st now tid adminId t0) := by
    simp only [coreSt9]
    rw [alookup_aupd_self, h8]
    rfl
  simp only [coreSt10]
  rw [alookup_aupd_self, h9]
  rfl

theorem execute_task_core_snd (st : HubState) (now : Nat) (tid : String)
    (adminId : Option String) (t0 : TaskRec) :
    (execute_task_core st now tid adminId t0).2 =
      coreBase3 st now tid adminId t0 ++
        [(.critic, coreC st now tid adminId t0)] := by
  show ((alookup (coreSt10 st now tid adminId t0).tasks tid).map
      (fun t => t.results)).getD [] = _
  rw [coreSt10_tasks_lookup]
  rfl

theorem finalTask_results (st : HubState) (now : Nat) (tid : String)
    (adminId : Option String) (t0 : TaskRec) :
    (finalTask st now tid adminId t0).results =
      coreBase3 st now tid adminId t0 ++
        [(.critic, coreC st now tid adminId t0)] := rfl

/-- **C2**.  On a task present with state `IDLE` and `iterations = 0` (as
`create_task` produces), `execute_task` terminates with the task
`FINISHED`, `iterations = 1`, a results map keyed exactly by research,
planning, execution and critic — each value non-empty provided every
registered agent's `receive_message` returns non-empty strings, which all
of the repository's agent classes do — and a quality score in `[0, 1]`. -/
theorem c2_execute_task (st : HubState) (now : Nat) (tid : String)
    (adminId : Option String) (t0 : TaskRec)
    (ht : alookup st.tasks tid = some t0)
    (hidle : t0.state = .IDLE) (hiter : t0.iterations = 0)
    (hwf : NonEmptyResponders st.agents) :
    ∃ t1 : TaskRec,
      alookup (execute_task st now tid adminId).1.tasks tid = some t1 ∧
      t1.state = .FINISHED ∧
      t1.iterations = 1 ∧
      t1.results.map Prod.fst =
        [AgentType.research, .planning, .execution, .critic] ∧
      (∀ pr ∈ t1.results, pr.2 ≠ "") ∧
      (∃ q, t1.quality_score = some q ∧ 0 ≤ q ∧ q ≤ 1) ∧
      (execute_task st now tid adminId).2 = .ok t1.results := by
  have hexec : execute_task st now tid adminId =
      ((execute_task_core st now tid adminId t0).1,
       .ok (execute_task_core st now tid adminId t0).2) := by
    rw [execute_task, ht]
  have hA1 : (coreSt1 st tid t0).agents = st.agents := rfl
  have hA2 : (coreSt2 st now tid adminId t0).agents = st.agents := by
    rw [coreSt2, execute_research_agents]
    exact hA1
  have hA3 : (coreSt3 st now tid adminId t0).agents = st.agents := by
    rw [coreSt3, execute_planning_agents]
    exact hA2
  have hA5 : (coreSt5 st now tid adminId t0).agents = st.agents :=
    coreSt4_agents st now tid adminId t0
  refine ⟨finalTask st now tid adminId t0, ?_, rfl, ?_, rfl, ?_, ?_, ?_⟩
  · rw [hexec]
    exact coreSt10_tasks_lookup st now tid adminId t0
  · show t0.iterations + 1 = 1
    rw [hiter]
  · intro pr hpr
    rw [finalTask_results] at hpr
    simp only [coreBase3, List.mem_append, List.mem_cons,
      List.not_mem_nil, or_false] at hpr
    rcases hpr with (rfl | rfl | rfl) | rfl
    · exact execute_research_resp_ne _ now _ adminId (hA1 ▸ hwf)
    · exact execute_planning_resp_ne _ now _ adminId (hA2.symm ▸ hwf)
    · exact execute_execution_resp_ne _ now _ adminId (hA3.symm ▸ hwf)
    · exact execute_critique_resp_ne _ now tid _ _ _ adminId (hA5.symm ▸ hwf)
  · exact ⟨evaluate_quality_score (coreC st now tid adminId t0), rfl,
      (evaluate_quality_score_bounds _).1, (evaluate_quality_score_bounds _).2⟩
  · rw [hexec]
    show Except.ok (execute_task_core st now tid adminId t0).2 = _
    rw [execute_task_core_snd, finalTask_results]

/-- A concrete hub holding one fresh task and no agents. -/
def c2Hub : HubState :=
  { agents := [], db := ⟨[], 0⟩, managed := [],
    tasks := [("t1", ⟨"demo", .IDLE, 0, [], none, 0⟩)],
    quality_assessments := [], discussions := [], uuid := 0 }

/-- Witness for `c2_execute_task` on `c2Hub`. -/
theorem c2_witness :
    ∃ t1 : TaskRec,
      alookup (execute_task c2Hub 0 "t1" none).1.tasks "t1" = some t1 ∧
      t1.state = .FINISHED ∧
      t1.iterations = 1 ∧
      t1.results.map Prod.fst =
        [AgentType.research, .planning, .execution, .critic] ∧
      (∀ pr ∈ t1.results, pr.2 ≠ "") ∧
      (∃ q, t1.quality_score = some q ∧ 0 ≤ q ∧ q ≤ 1) ∧
      (execute_task c2Hub 0 "t1" none).2 = .ok t1.results :=
  c2_execute_task c2Hub 0 "t1" none ⟨"demo", .IDLE, 0, [], none, 0⟩ rfl rfl rfl
    (by intro a ha; cases ha)

/-! ### The repository agent classes' `process_message` functions

These justify the `NonEmptyResponders` hypothesis of `c2_execute_task`:
every branch of every class returns a string with a non-empty literal
prefix. -/

/-- `", ".join(xs)`. -/
def joinComma (xs : List String) : String := String.intercalate ", " xs

/-- `BaseAgent.process_message`. -/
def baseProcessMessage (sender msg : String) : String :=
  "Received message from " ++ sender ++ ": " ++ msg

/-- `ResearchAgent.process_message` (the returned response; the `think`
recording does not affect the return value). -/
def researchProcessMessage (expertise : List String) (sender msg : String) :
    String :=
  if containsCL "research".data (lowerCL msg) then
    "I\x27ll research that for you. My expertise areas are: " ++
      joinComma expertise
  else if containsCL "analyze".data (lowerCL msg) then
    "I\x27ll analyze that information for you."
  else if containsCL "data".data (lowerCL msg) then
    "I can help you gather and analyze data on that topic."
  else
    "I\x27m a research agent specializing in " ++ joinComma expertise ++
      ". How can I help you with research or analysis?"

/-- `PlanningAgent.process_message`. -/
def planningProcessMessage (sender msg : String) : String :=
  if containsCL "plan".data (lowerCL msg) then
    "I\x27ll help you plan that task."
  else if containsCL "task".data (lowerCL msg) then
    "I can break down that task into manageable steps."
  else if containsCL "coordinate".data (lowerCL msg) then
    "I\x27ll coordinate the agents to accomplish this goal."
  else
    "I\x27m a planning agent. I can help you plan tasks, break them down into steps, and coordinate execution."

/-- `ExecutionAgent.process_message`. -/
def executionProcessMessage (skills : List String) (sender msg : String) :
    String :=
  if containsCL "execute".data (lowerCL msg) then
    "I\x27ll execute that task for you. My skills include: " ++
      joinComma skills
  else if containsCL "implement".data (lowerCL msg) then
    "I can implement that for you."
  else if containsCL "do".data (lowerCL msg) then
    "I\x27ll take care of that task."
  else
    "I\x27m an execution agent specializing in " ++ joinComma skills ++
      ". I can execute tasks for you."

/-- `CriticAgent.process_message`. -/
def criticProcessMessage (sender msg : String) : String :=
  if containsCL "evaluate".data (lowerCL msg) then
    "I\x27ll evaluate that for you and provide feedback."
  else if containsCL "review".data (lowerCL msg) then
    "I can review that and give you my assessment."
  else if containsCL "feedback".data (lowerCL msg) then
    "I\x27ll provide detailed feedback on that."
  else
    "I\x27m a critic agent. I can evaluate plans, review results, and provide constructive feedback."

theorem baseProcessMessage_ne_empty (s m : String) :
    baseProcessMessage s m ≠ "" :=
  string_append_ne_empty _ _ (by simp [String.data_append])

theorem researchProcessMessage_ne_empty (ex : List String) (s m : String) :
    researchProcessMessage ex s m ≠ "" := by
  rw [researchProcessMessage]
  by_cases h1 : containsCL "research".data (lowerCL m) = true
  · rw [if_pos h1]
    exact string_append_ne_empty _ _ (by decide)

  · rw [if_neg h1]
    by_cases h2 : containsCL "analyze".data (lowerCL m) = true
    · rw [if_pos h2]
      decide
    · rw [if_neg h2]
      by_cases h3 : containsCL "data".data (lowerCL m) = true
      · rw [if_pos h3]
        decide
      · rw [if_neg h3]
        exact string_append_ne_empty _ _ (by simp [String.data_append])

theorem planningProcessMessage_ne_empty (s m : String) :
    planningProcessMessage s m ≠ "" := by
  rw [planningProcessMessage]
  by_cases h1 : containsCL "plan".data (lowerCL m) = true
  · rw [if_pos h1]
    decide
  · rw [if_neg h1]
    by_cases h2 : containsCL "task".data (lowerCL m) = true
    · rw [if_pos h2]
      decide
    · rw [if_neg h2]
      by_cases h3 : containsCL "coordinate".data (lowerCL m) = true
      · rw [if_pos h3]
        decide
      · rw [if_neg h3]
        decide

theorem executionProcessMessage_ne_empty (sk : List String) (s m : String) :
    executionProcessMessage sk s m ≠ "" := by
  rw [executionProcessMessage]
  by_cases h1 : containsCL "execute".data (lowerCL m) = true
  · rw [if_pos h1]
    exact string_append_ne_empty _ _ (by decide)
  · rw [if_neg h1]
    by_cases h2 : containsCL "implement".data (lowerCL m) = true
    · rw [if_pos h2]
      decide
    · rw [if_neg h2]
      by_cases h3 : containsCL "do".data (lowerCL m) = true
      · rw [if_pos h3]
        decide
      · rw [if_neg h3]
        exact string_append_ne_empty _ _ (by simp [String.data_append])

theorem criticProcessMessage_ne_empty (s m : String) :
    criticProcessMessage s m ≠ "" := by
  rw [criticProcessMessage]
  by_cases h1 : containsCL "evaluate".data (lowerCL m) = true
  · rw [if_pos h1]
    decide
  · rw [if_neg h1]
    by_cases h2 : containsCL "review".data (lowerCL m) = true
    · rw [if_pos h2]
      decide
    · rw [if_neg h2]
      by_cases h3 : containsCL "feedback".data (lowerCL m) = true
      · rw [if_pos h3]
        decide
      · rw [if_neg h3]
        decide

/-- An agent that behaves like one of the repository's agent classes. -/
def RepoAgent (a : Agent) : Prop :=
  a.receive_message = none ∨
  a.receive_message = some baseProcessMessage ∨
  (∃ ex, a.receive_message = some (researchProcessMessage ex)) ∨
  a.receive_message = some planningProcessMessage ∨
  (∃ sk, a.receive_message = some (executionProcessMessage sk)) ∨
  a.receive_message = some criticProcessMessage

/-- A registry populated with the repository's agent classes satisfies the
non-empty-response hypothesis of `c2_execute_task`. -/
theorem repoAgents_nonEmptyResponders (l : List Agent)
    (h : ∀ a ∈ l, RepoAgent a) : NonEmptyResponders l := by
  intro a ha f hf s m
  rcases h a ha with h0 | h0 | ⟨ex, h0⟩ | h0 | ⟨sk, h0⟩ | h0 <;>
    rw [h0] at hf
  · cases hf
  · cases Option.some_inj.mp hf
    exact baseProcessMessage_ne_empty s m
  · cases Option.some_inj.mp hf
    exact researchProcessMessage_ne_empty ex s m
  · cases Option.some_inj.mp hf
    exact planningProcessMessage_ne_empty s m
  · cases Option.some_inj.mp hf
    exact executionProcessMessage_ne_empty sk s m
  · cases Option.some_inj.mp hf
    exact criticProcessMessage_ne_empty s m

/-! ### Discussions and the improvement loop -/

/-- Exceptions the Python code can raise in these flows. -/
inductive PyErr where
  | attributeError
  | typeError
  | keyError
deriving DecidableEq, Repr

/-- `self.discussions[discussion_id]["messages"].append(...)`. -/
def addDiscussionMsg (st : HubState) (did : String) (msg : DiscussionMsg) :
    HubState :=
  { st with discussions := aupd st.discussions did (fun d =>
      { d with messages := d.messages ++ [msg] }) }

/-- `AgentHub.initiate_discussion`.  The research, planning, and execution
agents are fetched via `get_agent_by_type` and dereferenced without a
`None` check (`research_agent.agent_id`), so a missing worker type raises
`AttributeError`; a missing task id raises `KeyError` on
`self.tasks[task_id]`.  (`uuid` models `uuid.uuid4()` freshness.) -/
def initiate_discussion (st : HubState) (now : Nat) (tid : String) :
    Except PyErr (HubState × String) :=
  match alookup st.tasks tid with
  | none => .error .keyError
  | some t =>
    let did := "discussion_" ++ toString st.uuid
    let st0 := { st with uuid := st.uuid + 1 }
    let critique := (alookup t.results .critic).getD "No critique available"
    let prompt := "We need to improve the results for task " ++ tid ++
      ". The critique identified the following issues:\n\n" ++ critique ++
      "\n\nLet\x27s discuss how to address these issues and improve the results."
    let drec : DiscussionRec := ⟨tid, prompt, [], now, true, none⟩
    let st1 := { st0 with discussions := aset st0.discussions did drec }
    match alookup st1.managed AgentType.research with
    | none => .error .attributeError
    | some rAg =>
      let st2 := (st1.sendMessage now "system" rAg.agent_id prompt).1
      let initialResponse := (st1.sendMessage now "system" rAg.agent_id prompt).2
      let st3 := addDiscussionMsg
        (addDiscussionMsg st2 did ⟨"system", rAg.agent_id, prompt, now⟩)
        did ⟨rAg.agent_id, "system", initialResponse, now⟩
      match alookup st3.managed AgentType.planning with
      | none => .error .attributeError
      | some pAg =>
        let planningPrompt := "Based on the research agent\x27s response:\n\n" ++
          initialResponse ++ "\n\nHow would you improve the plan?"
        let st4 := (st3.sendMessage now "system" pAg.agent_id planningPrompt).1
        let planningResponse :=
          (st3.sendMessage now "system" pAg.agent_id planningPrompt).2
        let st5 := addDiscussionMsg
          (addDiscussionMsg st4 did ⟨"system", pAg.agent_id, planningPrompt, now⟩)
          did ⟨pAg.agent_id, "system", planningResponse, now⟩
        match alookup st5.managed AgentType.execution with
        | none => .error .attributeError
        | some eAg =>
          let executionPrompt :=
            "Based on the research and planning responses:\n\nResearch: " ++
            initialResponse ++ "\n\nPlanning: " ++ planningResponse ++
            "\n\nHow would you improve the execution?"
          let st6 := (st5.sendMessage now "system" eAg.agent_id executionPrompt).1
          let executionResponse :=
            (st5.sendMessage now "system" eAg.agent_id executionPrompt).2
          let st7 := addDiscussionMsg
            (addDiscussionMsg st6 did ⟨"system", eAg.agent_id, executionPrompt, now⟩)
            did ⟨eAg.agent_id, "system", executionResponse, now⟩
          let st8 := { st7 with discussions := aupd st7.discussions did (fun d =>
            { d with active := false, concluded_at := some now }) }
          .ok (st8, did)

/-- The `while` loop of `improve_task_results`: guard (a `None` score makes
the `<` comparison raise `TypeError`), then one discussion/execute cycle.
`fuel` bounds the recursion; the theorems below show the real guard exits
first, and the returned count is the number of cycles run. -/
def improve_loop (now : Nat) (tid : String) (minq : ℚ) (maxIter : Nat)
    (adminId : Option String) : Nat → HubState → Except PyErr (HubState × Nat)
  | 0, st => .ok (st, 0)
  | fuel+1, st =>
    match alookup st.tasks tid with
    | none => .error .keyError
    | some t =>
      match t.quality_score with
      | none => .error .typeError
      | some q =>
        if q < minq ∧ t.iterations < maxIter then
          match initiate_discussion st now tid with
          | .error e => .error e
          | .ok (st2, _) =>
            match improve_loop now tid minq maxIter adminId fuel
                (execute_task st2 now tid adminId).1 with
            | .error e => .error e
            | .ok (st4, n) => .ok (st4, n + 1)
        else .ok (st, 0)

/-- `AgentHub.improve_task_results`: execute once if not yet `FINISHED`,
then loop while the score is below `minq` and iterations below `maxIter`;
return the task's final results. -/
def improve_task_results (st : HubState) (now : Nat) (tid : String)
    (minq : ℚ) (maxIter : Nat) (adminId : Option String) :
    Except PyErr (HubState × Except String (List (AgentType × String))) :=
  match alookup st.tasks tid with
  | none => .ok (st, .error ("Task " ++ tid ++ " not found"))
  | some t =>
    let stA := if t.state ≠ AgentState.FINISHED
               then (execute_task st now tid adminId).1 else st
    match improve_loop now tid minq maxIter adminId (maxIter + 1) stA with
    | .error e => .error e
    | .ok (stB, _) =>
      match alookup stB.tasks tid with
      | none => .error .keyError
      | some t2 => .ok (stB, .ok t2.results)

theorem finalTask_iterations (st : HubState) (now : Nat) (tid : String)
    (adminId : Option String) (t0 : TaskRec) :
    (finalTask st now tid adminId t0).iterations = t0.iterations + 1 := rfl

theorem execute_task_tasks_lookup (st : HubState) (now : Nat) (tid : String)
    (adminId : Option String) (t0 : TaskRec)
    (ht : alookup st.tasks tid = some t0) :
    alookup (execute_task st now tid adminId).1.tasks tid =
      some (finalTask st now tid adminId t0) := by
  rw [execute_task, ht]
  exact coreSt10_tasks_lookup st now tid adminId t0

theorem coreSt10_managed (st : HubState) (now : Nat) (tid : String)
    (adminId : Option String) (t0 : TaskRec) :
    (coreSt10 st now tid adminId t0).managed = st.managed := by
  show (coreSt6 st now tid adminId t0).managed = st.managed
  rw [coreSt6, execute_critique_managed]
  show (coreSt4 st now tid adminId t0).managed = st.managed
  rw [coreSt4, execute_execution_managed, coreSt3, execute_planning_managed,
    coreSt2, execute_research_managed]
  rfl

theorem coreSt10_agents (st : HubState) (now : Nat) (tid : String)
    (adminId : Option String) (t0 : TaskRec) :
    (coreSt10 st now tid adminId t0).agents = st.agents := by
  show (coreSt6 st now tid adminId t0).agents = st.agents
  rw [coreSt6, execute_critique_agents]
  exact coreSt4_agents st now tid adminId t0

theorem execute_task_managed (st : HubState) (now : Nat) (tid : String)
    (adminId : Option String) :
    (execute_task st now tid adminId).1.managed = st.managed := by
  rw [execute_task]
  rcases alookup st.tasks tid with _ | t0
  · rfl
  · exact coreSt10_managed st now tid adminId t0

theorem execute_task_agents (st : HubState) (now : Nat) (tid : String)
    (adminId : Option String) :
    (execute_task st now tid adminId).1.agents = st.agents := by
  rw [execute_task]
  rcases alookup st.tasks tid with _ | t0
  · rfl
  · exact coreSt10_agents st now tid adminId t0

theorem initiate_discussion_frame (st : HubState) (now : Nat) (tid : String)
    (st' : HubState) (did : String)
    (h : initiate_discussion st now tid = .ok (st', did)) :
    st'.tasks = st.tasks ∧ st'.managed = st.managed ∧
      st'.agents = st.agents := by
  rw [initiate_discussion] at h
  rcases ht : alookup st.tasks tid with _ | t
  · rw [ht] at h
    exact Except.noConfusion h
  · rw [ht] at h
    dsimp only [addDiscussionMsg, HubState.sendMessage] at h
    rcases hr : alookup st.managed AgentType.research with _ | rAg
    · rw [hr] at h
      exact Except.noConfusion h
    · rw [hr] at h
      dsimp only [addDiscussionMsg, HubState.sendMessage] at h
      rcases hp : alookup st.managed AgentType.planning with _ | pAg
      · rw [hp] at h
        exact Except.noConfusion h
      · rw [hp] at h
        dsimp only [addDiscussionMsg, HubState.sendMessage] at h
        rcases he : alookup st.managed AgentType.execution with _ | eAg
        · rw [he] at h
          exact Except.noConfusion h
        · rw [he] at h
          dsimp only [addDiscussionMsg, HubState.sendMessage] at h
          have h2 := Except.ok.inj h
          rw [Prod.mk.injEq] at h2
          obtain ⟨h3, _⟩ := h2
          subst h3
          exact ⟨rfl, rfl, rfl⟩

theorem initiate_discussion_ok (st : HubState) (now : Nat) (tid : String)
    (t : TaskRec) (ht : alookup st.tasks tid = some t)
    (hr : (alookup st.managed AgentType.research).isSome = true)
    (hp : (alookup st.managed AgentType.planning).isSome = true)
    (he : (alookup st.managed AgentType.execution).isSome = true) :
    ∃ st' did, initiate_discussion st now tid = .ok (st', did) := by
  rcases Option.isSome_iff_exists.mp hr with ⟨rAg, hrAg⟩
  rcases Option.isSome_iff_exists.mp hp with ⟨pAg, hpAg⟩
  rcases Option.isSome_iff_exists.mp he with ⟨eAg, heAg⟩
  rw [initiate_discussion, ht]
  dsimp only [addDiscussionMsg, HubState.sendMessage]
  rw [hrAg]
  dsimp only [addDiscussionMsg, HubState.sendMessage]
  rw [hpAg]
  dsimp only [addDiscussionMsg, HubState.sendMessage]
  rw [heAg]
  exact ⟨_, _, rfl⟩

theorem improve_loop_spec (now : Nat) (tid : String) (minq : ℚ)
    (maxIter : Nat) (adminId : Option String) :
    ∀ fuel st t, alookup st.tasks tid = some t →
      maxIter - t.iterations < fuel →
      (∃ e, improve_loop now tid minq maxIter adminId fuel st = .error e) ∨
      (∃ st' n t' q',
        improve_loop now tid minq maxIter adminId fuel st = .ok (st', n) ∧
        n ≤ maxIter - t.iterations ∧
        alookup st'.tasks tid = some t' ∧ t'.quality_score = some q' ∧
        (minq ≤ q' ∨ maxIter ≤ t'.iterations)) := by
  intro fuel
  induction fuel with
  | zero =>
    intro st t ht hf
    omega
  | succ f ih =>
    intro st t ht hf
    rcases hq : t.quality_score with _ | q
    · left
      refine ⟨.typeError, ?_⟩
      simp only [improve_loop]
      rw [ht]
      dsimp only
      rw [hq]
    · by_cases hg : q < minq ∧ t.iterations < maxIter
      · rcases hd : initiate_discussion st now tid with e | p
        · left
          refine ⟨e, ?_⟩
          simp only [improve_loop]
          rw [ht]
          dsimp only
          rw [hq]
          dsimp only
          rw [if_pos hg, hd]
        · rcases p with ⟨st2, did⟩
          obtain ⟨hT2, hM2, hA2⟩ :=
            initiate_discussion_frame st now tid st2 did hd
          have ht2 : alookup st2.tasks tid = some t := by
            rw [hT2]
            exact ht
          have ht3 := execute_task_tasks_lookup st2 now tid adminId t ht2
          have hfi : (finalTask st2 now tid adminId t).iterations =
              t.iterations + 1 := rfl
          have hIt : t.iterations < maxIter := hg.2
          have hrec := ih (execute_task st2 now tid adminId).1
            (finalTask st2 now tid adminId t) ht3 (by rw [hfi]; omega)
          rcases hrec with ⟨e, hre⟩ |
            ⟨st', n, t', q', hok, hb, hl', hq', hcond⟩
          · left
            refine ⟨e, ?_⟩
            simp only [improve_loop]
            rw [ht]
            dsimp only
            rw [hq]
            dsimp only
            rw [if_pos hg, hd]
            dsimp only
            rw [hre]
          · right
            refine ⟨st', n + 1, t', q', ?_, ?_, hl', hq', hcond⟩
            · simp only [improve_loop]
              rw [ht]
              dsimp only
              rw [hq]
              dsimp only
              rw [if_pos hg, hd]
              dsimp only
              rw [hok]
            · rw [hfi] at hb
              omega
      · right
        refine ⟨st, 0, t, q, ?_, by omega, ht, hq, ?_⟩
        · simp only [improve_loop]
          rw [ht]
          dsimp only
          rw [hq]
          dsimp only
          rw [if_neg hg]
        · rcases not_and_or.mp hg with h | h
          · exact Or.inl (not_lt.mp h)
          · exact Or.inr (not_lt.mp h)

theorem improve_loop_ok (now : Nat) (tid : String) (minq : ℚ)
    (maxIter : Nat) (adminId : Option String) :
    ∀ fuel st t q, alookup st.tasks tid = some t →
      t.quality_score = some q →
      (alookup st.managed AgentType.research).isSome = true →
      (alookup st.managed AgentType.planning).isSome = true →
      (alookup st.managed AgentType.execution).isSome = true →
      maxIter - t.iterations < fuel →
      ∃ st' n t',
        improve_loop now tid minq maxIter adminId fuel st = .ok (st', n) ∧
        alookup st'.tasks tid = some t' := by
  intro fuel
  induction fuel with
  | zero =>
    intro st t q ht hq hr hp he hf
    omega
  | succ f ih =>
    intro st t q ht hq hr hp he hf
    by_cases hg : q < minq ∧ t.iterations < maxIter
    · obtain ⟨st2, did, hd⟩ := initiate_discussion_ok st now tid t ht hr hp he
      obtain ⟨hT2, hM2, hA2⟩ := initiate_discussion_frame st now tid st2 did hd
      have ht2 : alookup st2.tasks tid = some t := by
        rw [hT2]
        exact ht
      have ht3 := execute_task_tasks_lookup st2 now tid adminId t ht2
      have hfi : (finalTask st2 now tid adminId t).iterations =
          t.iterations + 1 := rfl
      have hIt : t.iterations < maxIter := hg.2
      have hM3 : (execute_task st2 now tid adminId).1.managed = st.managed := by
        rw [execute_task_managed, hM2]
      have hrec := ih (execute_task st2 now tid adminId).1
        (finalTask st2 now tid adminId t)
        (evaluate_quality_score (coreC st2 now tid adminId t)) ht3 rfl
        (by rw [hM3]; exact hr) (by rw [hM3]; exact hp)
        (by rw [hM3]; exact he) (by rw [hfi]; omega)
      obtain ⟨st', n, t', hok, hl'⟩ := hrec
      refine ⟨st', n + 1, t', ?_, hl'⟩
      simp only [improve_loop]
      rw [ht]
      dsimp only
      rw [hq]
      dsimp only
      rw [if_pos hg, hd]
      dsimp only
      rw [hok]
    · refine ⟨st, 0, t, ?_, ht⟩
      simp only [improve_loop]
      rw [ht]
      dsimp only
      rw [hq]
      dsimp only
      rw [if_neg hg]

/-- **C3**.  The improvement loop runs a discussion/execute cycle only
while the quality score is below `minq` and the iteration count below
`maxIter` (first conjunct: a satisfied guard condition means zero cycles);
it always terminates, performing at most `maxIter - iterations` further
cycles before exiting with the score at or above the floor or the budget
exhausted (second conjunct; with `minq = 0.9` and `maxIter = 2` this is at
most 2 cycles); and with the three worker types managed,
`improve_task_results` returns the final results map even when the score
never reaches the floor (third conjunct). -/
theorem c3_improve_task_results :
    (∀ (now : Nat) (tid : String) (minq : ℚ) (maxIter : Nat)
        (adminId : Option String) (fuel : Nat) (st : HubState) (t : TaskRec)
        (q : ℚ),
      alookup st.tasks tid = some t → t.quality_score = some q →
      (minq ≤ q ∨ maxIter ≤ t.iterations) →
      improve_loop now tid minq maxIter adminId (fuel + 1) st = .ok (st, 0)) ∧
    (∀ (now : Nat) (tid : String) (minq : ℚ) (maxIter : Nat)
        (adminId : Option String) (fuel : Nat) (st : HubState) (t : TaskRec),
      alookup st.tasks tid = some t → maxIter - t.iterations < fuel →
      (∃ e, improve_loop now tid minq maxIter adminId fuel st = .error e) ∨
      (∃ st' n t' q',
        improve_loop now tid minq maxIter adminId fuel st = .ok (st', n) ∧
        n ≤ maxIter - t.iterations ∧
        alookup st'.tasks tid = some t' ∧ t'.quality_score = some q' ∧
        (minq ≤ q' ∨ maxIter ≤ t'.iterations))) ∧
    (∀ (now : Nat) (tid : String) (minq : ℚ) (maxIter : Nat)
        (adminId : Option String) (st : HubState) (t : TaskRec),
      alookup st.tasks tid = some t →
      (alookup st.managed AgentType.research).isSome = true →
      (alookup st.managed AgentType.planning).isSome = true →
      (alookup st.managed AgentType.execution).isSome = true →
      (t.state = AgentState.FINISHED → t.quality_score.isSome = true) →
      ∃ st' res, improve_task_results st now tid minq maxIter adminId =
        .ok (st', .ok res)) := by
  refine ⟨?_, ?_, ?_⟩
  · intro now tid minq maxIter adminId fuel st t q ht hq hcond
    have hng : ¬ (q < minq ∧ t.iterations < maxIter) := by
      rcases hcond with h | h
      · exact fun hgg => (not_lt.mpr h) hgg.1
      · exact fun hgg => (not_lt.mpr h) hgg.2
    simp only [improve_loop]
    rw [ht]
    dsimp only
    rw [hq]
    dsimp only
    rw [if_neg hng]
  · exact fun now tid minq maxIter adminId fuel st t =>
      improve_loop_spec now tid minq maxIter adminId fuel st t
  · intro now tid minq maxIter adminId st t ht hr hp he hwfq
    by_cases hs : t.state = AgentState.FINISHED
    · rcases Option.isSome_iff_exists.mp (hwfq hs) with ⟨q, hq⟩
      obtain ⟨st', n, t', hok, hl'⟩ := improve_loop_ok now tid minq maxIter
        adminId (maxIter + 1) st t q ht hq hr hp he (by omega)
      refine ⟨st', t'.results, ?_⟩
      rw [improve_task_results, ht]
      dsimp only
      rw [if_neg (fun hne => hne hs), hok]
      dsimp only
      rw [hl']
    · have ht3 := execute_task_tasks_lookup st now tid adminId t ht
      have hM3 : (execute_task st now tid adminId).1.managed = st.managed :=
        execute_task_managed st now tid adminId
      obtain ⟨st', n, t', hok, hl'⟩ := improve_loop_ok now tid minq maxIter
        adminId (maxIter + 1) (execute_task st now tid adminId).1
        (finalTask st now tid adminId t)
        (evaluate_quality_score (coreC st now tid adminId t)) ht3 rfl
        (by rw [hM3]; exact hr) (by rw [hM3]; exact hp)
        (by rw [hM3]; exact he) (by omega)
      refine ⟨st', t'.results, ?_⟩
      rw [improve_task_results, ht]
      dsimp only
      rw [if_pos hs, hok]
      dsimp only
      rw [hl']

/-- A concrete hub with a full managed team and a fresh task. -/
def c3Hub : HubState :=
  { agents := [], db := ⟨[], 0⟩,
    managed := [(.research, ⟨"r1", none⟩), (.planning, ⟨"p1", none⟩),
      (.execution, ⟨"e1", none⟩), (.critic, ⟨"c1", none⟩)],
    tasks := [("t1", ⟨"demo", .IDLE, 0, [], none, 0⟩)],
    quality_assessments := [], discussions := [], uuid := 0 }

/-- Witness for `c3_improve_task_results` on `c3Hub` with
`min_quality = 0.9` and `max_iterations = 2`. -/
theorem c3_witness :
    ∃ st' res, improve_task_results c3Hub 0 "t1" (9 / 10) 2 none =
      .ok (st', .ok res) :=
  c3_improve_task_results.2.2 0 "t1" (9 / 10) 2 none c3Hub
    ⟨"demo", .IDLE, 0, [], none, 0⟩ rfl rfl rfl rfl
    (fun h => absurd h (by decide))

/-! ### C4: missing worker types -/

/-- An empty hub: no registered agents, no managed agents. -/
def c4Hub : HubState :=
  { agents := [], db := ⟨[], 0⟩, managed := [], tasks := [],
    quality_assessments := [], discussions := [], uuid := 0 }

def c4T0 : TaskRec := ⟨"demo", .IDLE, 0, [], none, 0⟩

/-- The hub after `create_task`. -/
def c4St1 : HubState := (create_task c4Hub 0 "t1" "demo").1

/-- The hub after one `execute_task` with every worker type missing. -/
def c4St2 : HubState := (execute_task c4St1 0 "t1" none).1

theorem c4_score : evaluate_quality_score "Critic agent not available" =
    1 / 2 := by
  have h1 : positiveCount "Critic agent not available" = 0 := by decide
  have h2 : negativeCount "Critic agent not available" = 0 := by decide
  rw [evaluate_quality_score, h1, h2]
  norm_num

theorem c4_exec_lookup : alookup c4St2.tasks "t1" =
    some (finalTask c4St1 0 "t1" none c4T0) :=
  execute_task_tasks_lookup c4St1 0 "t1" none c4T0 rfl

theorem c4_managed_none :
    alookup c4St2.managed AgentType.research = none := by
  show alookup (execute_task c4St1 0 "t1" none).1.managed AgentType.research
    = none
  rw [execute_task_managed]
  rfl

theorem c4_discussion_raises :
    initiate_discussion c4St2 0 "t1" = .error .attributeError := by
  rw [initiate_discussion, c4_exec_lookup]
  dsimp only [addDiscussionMsg, HubState.sendMessage]
  rw [c4_managed_none]

/-- **C4** (the code at the failing input).  With every worker type absent
from the managed-agent map, `execute_task` completes, substituting the
"<type> agent not available" placeholders — but `improve_task_results`
then raises `AttributeError` inside `initiate_discussion`
(`research_agent.agent_id` is dereferenced without a `None` check), so the
claimed always-completes behaviour fails for `improve_task_results`. -/
theorem c4_missing_agent_behavior :
    (execute_task c4St1 0 "t1" none).2 =
      .ok [(.research, "Research agent not available"),
           (.planning, "Planning agent not available"),
           (.execution, "Execution agent not available"),
           (.critic, "Critic agent not available")] ∧
    improve_task_results c4St2 0 "t1" (9 / 10) 2 none =
      .error .attributeError := by
  constructor
  · have ht : alookup c4St1.tasks "t1" = some c4T0 := rfl
    rw [execute_task, ht]
    dsimp only
    rw [execute_task_core_snd]
    rfl
  · have hq : (finalTask c4St1 0 "t1" none c4T0).quality_score =
        some (evaluate_quality_score "Critic agent not available") := rfl
    have hguard : evaluate_quality_score "Critic agent not available" <
        9 / 10 ∧ (finalTask c4St1 0 "t1" none c4T0).iterations < 2 := by
      constructor
      · rw [c4_score]
        norm_num
      · show c4T0.iterations + 1 < 2
        decide
    rw [improve_task_results, c4_exec_lookup]
    dsimp only
    rw [if_neg (fun hne => hne rfl)]
    simp only [improve_loop]
    rw [c4_exec_lookup]
    dsimp only
    rw [hq]
    dsimp only
    rw [if_pos hguard, c4_discussion_raises]

/-! ### Task planner (`TaskPlanner`, `app/planning/task_planner.py`)

Subtasks live inside their parent task's `subtasks` list.  Database
recording (`record_planning`) and the timestamp fields do not influence
statuses and are not modeled; indices are naturals (a Python negative
index below `-len` would raise `IndexError` rather than return `False`). -/

inductive SubtaskStatus where
  | created
  | assigned
  | in_progress
  | completed
deriving DecidableEq, Repr

structure Subtask where
  sid : String
  description : String
  status : SubtaskStatus
  agent_id : Option String
deriving DecidableEq, Repr

structure PTask where
  description : String
  creator_id : String
  status : String
  subtasks : List Subtask
deriving DecidableEq, Repr

structure PlannerState where
  tasks : List (String × PTask)
deriving DecidableEq, Repr

/-- `lst[i]` as an option (model of Python list indexing with a checked
bound). -/
def getIdx {α : Type} : List α → Nat → Option α
  | [], _ => none
  | x :: _, 0 => some x
  | _ :: xs, i+1 => getIdx xs i

/-- `lst[i] = f(lst[i])`-style in-place update. -/
def modifyAt {α : Type} : List α → Nat → (α → α) → List α
  | [], _, _ => []
  | x :: xs, 0, f => f x :: xs
  | x :: xs, i+1, f => x :: modifyAt xs i f

/-- `TaskPlanner.create_task` (the fresh uuid is passed in as `tid`). -/
def planner_create_task (ps : PlannerState) (tid desc creator : String) :
    PlannerState :=
  ⟨aset ps.tasks tid ⟨desc, creator, "created", []⟩⟩

/-- `TaskPlanner.decompose_task`: append one `created` subtask per
description, ids derived as `<task-id>_subtask_<index>`. -/
def decompose_task (ps : PlannerState) (tid : String) (subs : List String) :
    PlannerState × List String :=
  match alookup ps.tasks tid with
  | none => (ps, [])
  | some _ =>
    let newSubs := subs.enum.map (fun p =>
      (⟨tid ++ "_subtask_" ++ toString p.1, p.2, .created, none⟩ : Subtask))
    (⟨aupd ps.tasks tid (fun t => { t with subtasks := t.subtasks ++ newSubs })⟩,
     subs.enum.map (fun p => tid ++ "_subtask_" ++ toString p.1))

/-- `TaskPlanner.assign_subtask`: bounds-checked; a missing task or a
too-large index returns `False` without mutation. -/
def assign_subtask (ps : PlannerState) (tid : String) (idx : Nat)
    (agentId : String) : PlannerState × Bool :=
  match alookup ps.tasks tid with
  | none => (ps, false)
  | some t =>
    if t.subtasks.length ≤ idx then (ps, false)
    else
      let g := fun (s : Subtask) =>
        { s with agent_id := some agentId, status := SubtaskStatus.assigned }
      (⟨aupd ps.tasks tid
        (fun t' => { t' with subtasks := modifyAt t'.subtasks idx g })⟩, true)

/-- `TaskPlanner.execute_subtask`: bounds check, assigned check, set
`in_progress`, send to the assigned agent (`send` gives the response),
set `completed`.  (The inner `getIdx` cannot be `none` once the bound
check passed; that branch is unreachable.) -/
def execute_subtask (ps : PlannerState) (send : String → String → String)
    (tid : String) (idx : Nat) : PlannerState × String :=
  match alookup ps.tasks tid with
  | none => (ps, "Subtask not found")
  | some t =>
    if t.subtasks.length ≤ idx then (ps, "Subtask not found")
    else
      match getIdx t.subtasks idx with
      | none => (ps, "Subtask not found")
      | some sub =>
        match sub.agent_id with
        | none =>
          (ps, "Subtask " ++ sub.sid ++ " has not been assigned to any agent")
        | some aid =>
          let g1 := fun (s : Subtask) => { s with status := SubtaskStatus.in_progress }
          let g2 := fun (s : Subtask) => { s with status := SubtaskStatus.completed }
          let ps1 : PlannerState := ⟨aupd ps.tasks tid
            (fun t' => { t' with subtasks := modifyAt t'.subtasks idx g1 })⟩
          let resp := send aid ("Execute subtask: " ++ sub.description)
          let ps2 : PlannerState := ⟨aupd ps1.tasks tid
            (fun t' => { t' with subtasks := modifyAt t'.subtasks idx g2 })⟩
          (ps2, resp)

/-- The planner operations a caller can issue. -/
inductive PlannerOp where
  | createT (tid desc creator : String)
  | decompose (tid : String) (subs : List String)
  | assign (tid : String) (idx : Nat) (agentId : String)
  | execSub (tid : String) (idx : Nat)

def applyOp (send : String → String → String) (ps : PlannerState) :
    PlannerOp → PlannerState
  | .createT tid d c => planner_create_task ps tid d c
  | .decompose tid subs => (decompose_task ps tid subs).1
  | .assign tid i a => (assign_subtask ps tid i a).1
  | .execSub tid i => (execute_subtask ps send tid i).1

/-- Run a sequence of planner operations from the empty planner. -/
def runOps (send : String → String → String) (ops : List PlannerOp) :
    PlannerState :=
  ops.foldl (applyOp send) ⟨[]⟩

def statusRank : SubtaskStatus → Nat
  | .created => 0
  | .assigned => 1
  | .in_progress => 2
  | .completed => 3

/-- The status of subtask `idx` of task `tid`. -/
def subtaskStatusAt (ps : PlannerState) (tid : String) (idx : Nat) :
    Option SubtaskStatus :=
  match alookup ps.tasks tid with
  | none => none
  | some t => (getIdx t.subtasks idx).map (fun s => s.status)

/-- Claim C9 as stated: statuses move only forward along
created → assigned → in_progress → completed under every operation
sequence, `in_progress` only after assignment, and an out-of-range
`assign_subtask` fails without mutation. -/
def C9ClaimAsStated : Prop :=
  (∀ (send : String → String → String) (ops : List PlannerOp)
      (op : PlannerOp) (tid : String) (idx : Nat) (s s' : SubtaskStatus),
    subtaskStatusAt (runOps send ops) tid idx = some s →
    subtaskStatusAt (applyOp send (runOps send ops) op) tid idx = some s' →
    statusRank s ≤ statusRank s') ∧
  (∀ (send : String → String → String) (ops : List PlannerOp)
      (tid : String) (idx : Nat) (t : PTask),
    alookup (runOps send ops).tasks tid = some t →
    ∀ sub ∈ t.subtasks, sub.status ≠ .created → sub.agent_id.isSome = true) ∧
  (∀ (ps : PlannerState) (tid : String) (idx : Nat) (a : String) (t : PTask),
    alookup ps.tasks tid = some t → t.subtasks.length ≤ idx →
    assign_subtask ps tid idx a = (ps, false))

/-- The trace that breaks forward-only: decompose, assign, execute to
completion, then re-assign the completed subtask. -/
def c9Ops : List PlannerOp :=
  [.createT "t" "d" "sys", .decompose "t" ["s0"], .assign "t" 0 "a",
   .execSub "t" 0]

/-- **C9** (counterexample to the claim as stated).  After the subtask is
`completed`, a second `assign_subtask` on the same index moves its status
back to `assigned`: statuses do not only move forward. -/
theorem c9_counterexample : ¬ C9ClaimAsStated := by
  intro h
  have h1 : subtaskStatusAt (runOps (fun _ _ => "") c9Ops) "t" 0 =
      some .completed := by rfl
  have h2 : subtaskStatusAt
      (applyOp (fun _ _ => "") (runOps (fun _ _ => "") c9Ops)
        (.assign "t" 0 "b")) "t" 0 = some .assigned := by rfl
  have h3 := h.1 (fun _ _ => "") c9Ops (.assign "t" 0 "b") "t" 0
    .completed .assigned h1 h2
  exact absurd h3 (by decide)

/-! Index/update lemmas for the planner proofs. -/

theorem getIdx_modifyAt_self {α : Type} (l : List α) (i : Nat) (g : α → α) :
    getIdx (modifyAt l i g) i = (getIdx l i).map g := by
  induction l generalizing i with
  | nil => rfl
  | cons x xs ih =>
    cases i with
    | zero => rfl
    | succ j => exact ih j

theorem getIdx_modifyAt_ne {α : Type} (l : List α) (i j : Nat) (g : α → α)
    (h : i ≠ j) : getIdx (modifyAt l i g) j = getIdx l j := by
  induction l generalizing i j with
  | nil => rfl
  | cons x xs ih =>
    cases i with
    | zero =>
      cases j with
      | zero => exact absurd rfl h
      | succ j' => rfl
    | succ i' =>
      cases j with
      | zero => rfl
      | succ j' => exact ih i' j' (fun hh => h (by rw [hh]))

theorem mem_modifyAt {α : Type} {x : α} {l : List α} {i : Nat} {g : α → α}
    (h : x ∈ modifyAt l i g) :
    x ∈ l ∨ ∃ y, getIdx l i = some y ∧ x = g y := by
  induction l generalizing i with
  | nil => exact absurd h (List.not_mem_nil x)
  | cons a xs ih =>
    cases i with
    | zero =>
      rcases List.mem_cons.mp h with rfl | hx
      · exact Or.inr ⟨a, rfl, rfl⟩
      · exact Or.inl (List.mem_cons_of_mem _ hx)
    | succ i' =>
      rcases List.mem_cons.mp h with rfl | hx
      · exact Or.inl (List.mem_cons_self _ _)
      · rcases ih hx with h1 | ⟨y, hy, hxy⟩
        · exact Or.inl (List.mem_cons_of_mem _ h1)
        · exact Or.inr ⟨y, hy, hxy⟩

theorem getIdx_append_left {α : Type} (l m : List α) (i : Nat) (x : α)
    (h : getIdx l i = some x) : getIdx (l ++ m) i = some x := by
  induction l generalizing i with
  | nil => cases h
  | cons a xs ih =>
    cases i with
    | zero => exact h
    | succ i' => exact ih i' h

theorem alookup_aset_ne {κ β : Type} [DecidableEq κ]
    (l : List (κ × β)) (k k' : κ) (v : β) (h : k ≠ k') :
    alookup (aset l k v) k' = alookup l k' := by
  induction l with
  | nil => simp [aset, alookup, h]
  | cons p rest ih =>
    rcases p with ⟨k0, v0⟩
    rw [aset]
    by_cases hk : k0 = k
    · rw [if_pos hk, alookup, alookup, if_neg h, hk, if_neg h]
    · rw [if_neg hk, alookup, alookup]
      by_cases hk' : k0 = k'
      · rw [if_pos hk', if_pos hk']
      · rw [if_neg hk', if_neg hk', ih]

theorem statusRank_le_three (s : SubtaskStatus) : statusRank s ≤ 3 := by
  cases s <;> decide

/-- Invariant: a subtask whose status has left `created` carries an
assigned agent (so `in_progress` is never entered before assignment). -/
def SubtaskWF (ps : PlannerState) : Prop :=
  ∀ (tid : String) (t : PTask), alookup ps.tasks tid = some t →
    ∀ sub ∈ t.subtasks, sub.status ≠ .created → sub.agent_id.isSome = true

/-- The fresh subtasks appended by `decompose_task`. -/
def decompSubs (tid : String) (subs : List String) : List Subtask :=
  subs.enum.map (fun p =>
    (⟨tid ++ "_subtask_" ++ toString p.1, p.2, .created, none⟩ : Subtask))

/-- The per-task update performed by `assign_subtask` on a valid index. -/
def assignSubtaskUpd (idx : Nat) (a : String) (t : PTask) : PTask :=
  let g := fun (s : Subtask) =>
    { s with agent_id := some a, status := SubtaskStatus.assigned }
  { t with subtasks := modifyAt t.subtasks idx g }

/-- The per-task status write performed by `execute_subtask`. -/
def execSubtaskUpd (idx : Nat) (st : SubtaskStatus) (t : PTask) : PTask :=
  let g := fun (s : Subtask) => { s with status := st }
  { t with subtasks := modifyAt t.subtasks idx g }

theorem applyOp_wf (send : String → String → String) (ps : PlannerState)
    (op : PlannerOp) (h : SubtaskWF ps) : SubtaskWF (applyOp send ps op) := by
  cases op with
  | createT tid d c =>
    intro tid' t' hl sub hsub hst
    by_cases hk : tid = tid'
    · subst hk
      rw [show (applyOp send ps (.createT tid d c)).tasks =
          aset ps.tasks tid ⟨d, c, "created", []⟩ from rfl,
        alookup_aset_self] at hl
      cases Option.some_inj.mp hl
      exact absurd hsub (List.not_mem_nil sub)
    · rw [show (applyOp send ps (.createT tid d c)).tasks =
          aset ps.tasks tid ⟨d, c, "created", []⟩ from rfl,
        alookup_aset_ne _ _ _ _ hk] at hl
      exact h tid' t' hl sub hsub hst
  | decompose tid subs =>
    intro tid' t' hl sub hsub hst
    rcases hT : alookup ps.tasks tid with _ | t0
    · rw [show (applyOp send ps (.decompose tid subs)).tasks = ps.tasks from by
          show (decompose_task ps tid subs).1.tasks = ps.tasks
          rw [decompose_task, hT]] at hl
      exact h tid' t' hl sub hsub hst
    · have htasks : (applyOp send ps (.decompose tid subs)).tasks =
          aupd ps.tasks tid
            (fun t => { t with subtasks := t.subtasks ++ decompSubs tid subs }) := by
        show (decompose_task ps tid subs).1.tasks = _
        rw [decompose_task, hT]
        try exact rfl
      by_cases hk : tid = tid'
      · subst hk
        rw [htasks, alookup_aupd_self, hT] at hl
        cases Option.some_inj.mp hl
        rcases List.mem_append.mp hsub with hmem | hmem
        · exact h tid t0 hT sub hmem hst
        · rcases List.mem_map.mp hmem with ⟨p, _, rfl⟩
          exact absurd rfl hst
      · rw [htasks, alookup_aupd_ne _ _ _ _ hk] at hl
        exact h tid' t' hl sub hsub hst
  | assign tid idx a =>
    intro tid' t' hl sub hsub hst
    rcases hT : alookup ps.tasks tid with _ | t0
    · rw [show (applyOp send ps (.assign tid idx a)).tasks = ps.tasks from by
          show (assign_subtask ps tid idx a).1.tasks = ps.tasks
          rw [assign_subtask, hT]] at hl
      exact h tid' t' hl sub hsub hst
    · by_cases hlen : t0.subtasks.length ≤ idx
      · rw [show (applyOp send ps (.assign tid idx a)).tasks = ps.tasks from by
            show (assign_subtask ps tid idx a).1.tasks = ps.tasks
            rw [assign_subtask, hT]
            dsimp only
            rw [if_pos hlen]] at hl
        exact h tid' t' hl sub hsub hst
      · have htasks : (applyOp send ps (.assign tid idx a)).tasks =
            aupd ps.tasks tid (assignSubtaskUpd idx a) := by
          show (assign_subtask ps tid idx a).1.tasks = _
          rw [assign_subtask, hT]
          dsimp only
          rw [if_neg hlen]
          try exact rfl
        by_cases hk : tid = tid'
        · subst hk
          rw [htasks, alookup_aupd_self, hT] at hl
          cases Option.some_inj.mp hl
          dsimp only [assignSubtaskUpd] at hsub
          rcases mem_modifyAt hsub with hmem | ⟨y, _, rfl⟩
          · exact h tid t0 hT sub hmem hst
          · rfl
        · rw [htasks, alookup_aupd_ne _ _ _ _ hk] at hl
          exact h tid' t' hl sub hsub hst
  | execSub tid idx =>
    intro tid' t' hl sub hsub hst
    rcases hT : alookup ps.tasks tid with _ | t0
    · rw [show (applyOp send ps (.execSub tid idx)).tasks = ps.tasks from by
          show (execute_subtask ps send tid idx).1.tasks = ps.tasks
          rw [execute_subtask, hT]] at hl
      exact h tid' t' hl sub hsub hst
    · by_cases hlen : t0.subtasks.length ≤ idx
      · rw [show (applyOp send ps (.execSub tid idx)).tasks = ps.tasks from by
            show (execute_subtask ps send tid idx).1.tasks = ps.tasks
            rw [execute_subtask, hT]
            dsimp only
            rw [if_pos hlen]] at hl
        exact h tid' t' hl sub hsub hst
      · rcases hg : getIdx t0.subtasks idx with _ | sub0
        · rw [show (applyOp send ps (.execSub tid idx)).tasks = ps.tasks from by
              show (execute_subtask ps send tid idx).1.tasks = ps.tasks
              rw [execute_subtask, hT]
              dsimp only
              rw [if_neg hlen, hg]] at hl
          exact h tid' t' hl sub hsub hst
        · rcases ha : sub0.agent_id with _ | aid
          · rw [show (applyOp send ps (.execSub tid idx)).tasks = ps.tasks from by
                show (execute_subtask ps send tid idx).1.tasks = ps.tasks
                rw [execute_subtask, hT]
                dsimp only
                rw [if_neg hlen, hg]
                dsimp only
                rw [ha]] at hl
            exact h tid' t' hl sub hsub hst
          · have htasks : (applyOp send ps (.execSub tid idx)).tasks =
                aupd (aupd ps.tasks tid
                    (execSubtaskUpd idx SubtaskStatus.in_progress)) tid
                  (execSubtaskUpd idx SubtaskStatus.completed) := by
              show (execute_subtask ps send tid idx).1.tasks = _
              rw [execute_subtask, hT]
              dsimp only
              rw [if_neg hlen, hg]
              dsimp only
              rw [ha]
              try exact rfl
            by_cases hk : tid = tid'
            · subst hk
              rw [htasks, alookup_aupd_self, alookup_aupd_self, hT] at hl
              cases Option.some_inj.mp hl
              dsimp only [execSubtaskUpd] at hsub
              rcases mem_modifyAt hsub with hmem | ⟨y, hy, rfl⟩
              · rcases mem_modifyAt hmem with hmem2 | ⟨z, hz, rfl⟩
                · exact h tid t0 hT sub hmem2 hst
                · rw [hg] at hz
                  cases Option.some_inj.mp hz
                  show sub0.agent_id.isSome = true
                  rw [ha]
                  rfl
              · rw [getIdx_modifyAt_self, hg] at hy
                cases Option.some_inj.mp hy
                show sub0.agent_id.isSome = true
                rw [ha]
                rfl
            · rw [htasks, alookup_aupd_ne _ _ _ _ hk,
                alookup_aupd_ne _ _ _ _ hk] at hl
              exact h tid' t' hl sub hsub hst

theorem runOps_wf (send : String → String → String) (ops : List PlannerOp) :
    SubtaskWF (runOps send ops) := by
  suffices h : ∀ ps, SubtaskWF ps →
      SubtaskWF (ops.foldl (applyOp send) ps) by
    refine h ⟨[]⟩ ?_
    intro tid t hl
    cases hl
  induction ops with
  | nil => exact fun ps hps => hps
  | cons op rest ih => exact fun ps hps => ih _ (applyOp_wf send ps op hps)

theorem subtaskStatusAt_congr {ps' ps : PlannerState}
    (h : ps'.tasks = ps.tasks) (tid : String) (idx : Nat) :
    subtaskStatusAt ps' tid idx = subtaskStatusAt ps tid idx := by
  rw [subtaskStatusAt, subtaskStatusAt, h]

theorem statusAt_elim {ps : PlannerState} {tid : String} {idx : Nat}
    {s : SubtaskStatus} (h : subtaskStatusAt ps tid idx = some s) :
    ∃ t sub, alookup ps.tasks tid = some t ∧
      getIdx t.subtasks idx = some sub ∧ sub.status = s := by
  rcases hT : alookup ps.tasks tid with _ | t
  · rw [subtaskStatusAt, hT] at h
    exact absurd h (by simp)
  · rw [subtaskStatusAt, hT] at h
    dsimp only at h
    rcases hg : getIdx t.subtasks idx with _ | sub
    · rw [hg] at h
      exact absurd h (by simp)
    · rw [hg] at h
      exact ⟨t, sub, rfl, hg, Option.some_inj.mp h⟩

theorem statusAt_intro {ps : PlannerState} {tid : String} {idx : Nat}
    {t : PTask} {sub : Subtask} (hT : alookup ps.tasks tid = some t)
    (hg : getIdx t.subtasks idx = some sub) :
    subtaskStatusAt ps tid idx = some sub.status := by
  rw [subtaskStatusAt, hT]
  dsimp only
  rw [hg]
  try exact rfl

theorem applyOp_status (send : String → String → String) (ps : PlannerState)
    (op : PlannerOp) (tid : String) (idx : Nat) (s s' : SubtaskStatus)
    (h1 : subtaskStatusAt ps tid idx = some s)
    (h2 : subtaskStatusAt (applyOp send ps op) tid idx = some s') :
    statusRank s ≤ statusRank s' ∨
      ∃ a, op = .assign tid idx a ∧ s' = SubtaskStatus.assigned := by
  rcases statusAt_elim h1 with ⟨t0, sub0, hT, hg, hs⟩
  cases op with
  | createT tid1 d c =>
    by_cases hk : tid1 = tid
    · subst hk
      have hnone : subtaskStatusAt (applyOp send ps (.createT tid1 d c))
          tid1 idx = none := by
        rw [subtaskStatusAt,
          show (applyOp send ps (PlannerOp.createT tid1 d c)).tasks =
            aset ps.tasks tid1 ⟨d, c, "created", []⟩ from rfl,
          alookup_aset_self]
        dsimp only
        rfl
      exact Option.noConfusion (hnone.symm.trans h2)
    · left
      have hsame : subtaskStatusAt (applyOp send ps (.createT tid1 d c))
          tid idx = subtaskStatusAt ps tid idx := by
        rw [subtaskStatusAt, subtaskStatusAt,
          show (applyOp send ps (PlannerOp.createT tid1 d c)).tasks =
            aset ps.tasks tid1 ⟨d, c, "created", []⟩ from rfl,
          alookup_aset_ne _ _ _ _ hk]
      rw [hsame, h1] at h2
      cases Option.some_inj.mp h2
      exact Nat.le_refl _
  | decompose tid1 subs =>
    left
    rcases hT1 : alookup ps.tasks tid1 with _ | t1
    · have hsame : (applyOp send ps (.decompose tid1 subs)).tasks =
          ps.tasks := by
        show (decompose_task ps tid1 subs).1.tasks = ps.tasks
        rw [decompose_task, hT1]
      rw [subtaskStatusAt_congr hsame, h1] at h2
      cases Option.some_inj.mp h2
      exact Nat.le_refl _
    · have htasks : (applyOp send ps (.decompose tid1 subs)).tasks =
          aupd ps.tasks tid1
            (fun t => { t with subtasks := t.subtasks ++ decompSubs tid1 subs }) := by
        show (decompose_task ps tid1 subs).1.tasks = _
        rw [decompose_task, hT1]
        try exact rfl
      by_cases hk : tid1 = tid
      · subst hk
        have ht01 : t1 = t0 := Option.some_inj.mp (hT1.symm.trans hT)
        subst ht01
        have hlook : alookup (applyOp send ps (.decompose tid1 subs)).tasks
            tid1 = some { t1 with subtasks := t1.subtasks ++ decompSubs tid1 subs } := by
          rw [htasks, alookup_aupd_self, hT1]
          try exact rfl
        have hnew := statusAt_intro hlook
          (getIdx_append_left _ (decompSubs tid1 subs) idx sub0 hg)
        cases Option.some_inj.mp (hnew.symm.trans h2)
        cases hs
        exact Nat.le_refl _
      · have hsame : subtaskStatusAt (applyOp send ps (.decompose tid1 subs))
            tid idx = subtaskStatusAt ps tid idx := by
          rw [subtaskStatusAt, subtaskStatusAt, htasks,
            alookup_aupd_ne _ _ _ _ hk]
        rw [hsame, h1] at h2
        cases Option.some_inj.mp h2
        exact Nat.le_refl _
  | assign tid1 idx1 a =>
    rcases hT1 : alookup ps.tasks tid1 with _ | t1
    · left
      have hsame : (applyOp send ps (.assign tid1 idx1 a)).tasks =
          ps.tasks := by
        show (assign_subtask ps tid1 idx1 a).1.tasks = ps.tasks
        rw [assign_subtask, hT1]
      rw [subtaskStatusAt_congr hsame, h1] at h2
      cases Option.some_inj.mp h2
      exact Nat.le_refl _
    · by_cases hlen : t1.subtasks.length ≤ idx1
      · left
        have hsame : (applyOp send ps (.assign tid1 idx1 a)).tasks =
            ps.tasks := by
          show (assign_subtask ps tid1 idx1 a).1.tasks = ps.tasks
          rw [assign_subtask, hT1]
          dsimp only
          rw [if_pos hlen]
        rw [subtaskStatusAt_congr hsame, h1] at h2
        cases Option.some_inj.mp h2
        exact Nat.le_refl _
      · have htasks : (applyOp send ps (.assign tid1 idx1 a)).tasks =
            aupd ps.tasks tid1 (assignSubtaskUpd idx1 a) := by
          show (assign_subtask ps tid1 idx1 a).1.tasks = _
          rw [assign_subtask, hT1]
          dsimp only
          rw [if_neg hlen]
          try exact rfl
        by_cases hk : tid1 = tid
        · subst hk
          have ht01 : t1 = t0 := Option.some_inj.mp (hT1.symm.trans hT)
          subst ht01
          have hlook : alookup (applyOp send ps (.assign tid1 idx1 a)).tasks
              tid1 = some (assignSubtaskUpd idx1 a t1) := by
            rw [htasks, alookup_aupd_self, hT1]
            try exact rfl
          by_cases hi : idx1 = idx
          · subst hi
            right
            have hgnew : getIdx (assignSubtaskUpd idx1 a t1).subtasks idx1 =
                some { sub0 with agent_id := some a, status := SubtaskStatus.assigned } := by
              dsimp only [assignSubtaskUpd]
              rw [getIdx_modifyAt_self, hg]
              try exact rfl
            have hnew := statusAt_intro hlook hgnew
            have hs' := Option.some_inj.mp (hnew.symm.trans h2)
            exact ⟨a, rfl, hs'.symm⟩
          · left
            have hgnew : getIdx (assignSubtaskUpd idx1 a t1).subtasks idx =
                some sub0 := by
              dsimp only [assignSubtaskUpd]
              rw [getIdx_modifyAt_ne _ _ _ _ hi, hg]
            have hnew := statusAt_intro hlook hgnew
            cases Option.some_inj.mp (hnew.symm.trans h2)
            cases hs
            exact Nat.le_refl _
        · left
          have hsame : subtaskStatusAt (applyOp send ps (.assign tid1 idx1 a))
              tid idx = subtaskStatusAt ps tid idx := by
            rw [subtaskStatusAt, subtaskStatusAt, htasks,
              alookup_aupd_ne _ _ _ _ hk]
          rw [hsame, h1] at h2
          cases Option.some_inj.mp h2
          exact Nat.le_refl _
  | execSub tid1 idx1 =>
    left
    rcases hT1 : alookup ps.tasks tid1 with _ | t1
    · have hsame : (applyOp send ps (.execSub tid1 idx1)).tasks = ps.tasks := by
        show (execute_subtask ps send tid1 idx1).1.tasks = ps.tasks
        rw [execute_subtask, hT1]
      rw [subtaskStatusAt_congr hsame, h1] at h2
      cases Option.some_inj.mp h2
      exact Nat.le_refl _
    · by_cases hlen : t1.subtasks.length ≤ idx1
      · have hsame : (applyOp send ps (.execSub tid1 idx1)).tasks =
            ps.tasks := by
          show (execute_subtask ps send tid1 idx1).1.tasks = ps.tasks
          rw [execute_subtask, hT1]
          dsimp only
          rw [if_pos hlen]
        rw [subtaskStatusAt_congr hsame, h1] at h2
        cases Option.some_inj.mp h2
        exact Nat.le_refl _
      · rcases hg1 : getIdx t1.subtasks idx1 with _ | sub1
        · have hsame : (applyOp send ps (.execSub tid1 idx1)).tasks =
              ps.tasks := by
            show (execute_subtask ps send tid1 idx1).1.tasks = ps.tasks
            rw [execute_subtask, hT1]
            dsimp only
            rw [if_neg hlen, hg1]
          rw [subtaskStatusAt_congr hsame, h1] at h2
          cases Option.some_inj.mp h2
          exact Nat.le_refl _
        · rcases ha1 : sub1.agent_id with _ | aid
          · have hsame : (applyOp send ps (.execSub tid1 idx1)).tasks =
                ps.tasks := by
              show (execute_subtask ps send tid1 idx1).1.tasks = ps.tasks
              rw [execute_subtask, hT1]
              dsimp only
              rw [if_neg hlen, hg1]
              dsimp only
              rw [ha1]
            rw [subtaskStatusAt_congr hsame, h1] at h2
            cases Option.some_inj.mp h2
            exact Nat.le_refl _
          · have htasks : (applyOp send ps (.execSub tid1 idx1)).tasks =
                aupd (aupd ps.tasks tid1
                    (execSubtaskUpd idx1 SubtaskStatus.in_progress)) tid1
                  (execSubtaskUpd idx1 SubtaskStatus.completed) := by
              show (execute_subtask ps send tid1 idx1).1.tasks = _
              rw [execute_subtask, hT1]
              dsimp only
              rw [if_neg hlen, hg1]
              dsimp only
              rw [ha1]
              try exact rfl
            by_cases hk : tid1 = tid
            · subst hk
              have ht01 : t1 = t0 := Option.some_inj.mp (hT1.symm.trans hT)
              subst ht01
              have hlook : alookup
                  (applyOp send ps (.execSub tid1 idx1)).tasks tid1 =
                  some (execSubtaskUpd idx1 SubtaskStatus.completed
                    (execSubtaskUpd idx1 SubtaskStatus.in_progress t1)) := by
                rw [htasks, alookup_aupd_self, alookup_aupd_self, hT1]
                try exact rfl
              by_cases hi : idx1 = idx
              · subst hi
                have hss : sub1 = sub0 :=
                  Option.some_inj.mp (hg1.symm.trans hg)
                subst hss
                have hgnew : getIdx
                    (execSubtaskUpd idx1 SubtaskStatus.completed
                      (execSubtaskUpd idx1 SubtaskStatus.in_progress
                        t1)).subtasks idx1 =
                    some { sub1 with status := SubtaskStatus.completed } := by
                  dsimp only [execSubtaskUpd]
                  rw [getIdx_modifyAt_self, getIdx_modifyAt_self, hg1]
                  try exact rfl
                have hnew := statusAt_intro hlook hgnew
                have hs' := Option.some_inj.mp (hnew.symm.trans h2)
                have hs3 : s' = SubtaskStatus.completed := hs'.symm
                rw [hs3]
                exact statusRank_le_three s
              · have hgnew : getIdx
                    (execSubtaskUpd idx1 SubtaskStatus.completed
                      (execSubtaskUpd idx1 SubtaskStatus.in_progress
                        t1)).subtasks idx = some sub0 := by
                  dsimp only [execSubtaskUpd]
                  rw [getIdx_modifyAt_ne _ _ _ _ hi,
                    getIdx_modifyAt_ne _ _ _ _ hi, hg]
                have hnew := statusAt_intro hlook hgnew
                cases Option.some_inj.mp (hnew.symm.trans h2)
                cases hs
                exact Nat.le_refl _
            · have hsame : subtaskStatusAt
                  (applyOp send ps (.execSub tid1 idx1)) tid idx =
                  subtaskStatusAt ps tid idx := by
                rw [subtaskStatusAt, subtaskStatusAt, htasks,
                  alookup_aupd_ne _ _ _ _ hk, alookup_aupd_ne _ _ _ _ hk]
              rw [hsame, h1] at h2
              cases Option.some_inj.mp h2
              exact Nat.le_refl _

/-- **C9** (amended).  Under every sequence of planner operations: (a) a
subtask whose status has left `created` always carries an assigned agent,
so `in_progress` is never entered before assignment; (b) `assign_subtask`
with an out-of-range index returns the state unchanged together with
`False`; (c) a single operation either leaves a subtask's status-rank
non-decreasing along created → assigned → in_progress → completed, or is an
`assign_subtask` aimed at that very subtask, which (re)sets its status to
`assigned` — re-assignment of a completed subtask being the one backward
move the code permits (`c9_counterexample`). -/
theorem c9_planner_amended :
    (∀ (send : String → String → String) (ops : List PlannerOp),
      SubtaskWF (runOps send ops)) ∧
    (∀ (ps : PlannerState) (tid : String) (idx : Nat) (a : String)
      (t : PTask), alookup ps.tasks tid = some t →
      t.subtasks.length ≤ idx → assign_subtask ps tid idx a = (ps, false)) ∧
    (∀ (send : String → String → String) (ps : PlannerState)
      (op : PlannerOp) (tid : String) (idx : Nat) (s s' : SubtaskStatus),
      subtaskStatusAt ps tid idx = some s →
      subtaskStatusAt (applyOp send ps op) tid idx = some s' →
      statusRank s ≤ statusRank s' ∨
        ∃ a, op = .assign tid idx a ∧ s' = SubtaskStatus.assigned) := by
  refine ⟨runOps_wf, ?_, applyOp_status⟩
  intro ps tid idx a t hT hlen
  rw [assign_subtask, hT]
  dsimp only
  rw [if_pos hlen]

/-- A one-task planner state with a single unassigned subtask. -/
def c9WitnessState : PlannerState :=
  ⟨[("t", ⟨"d", "sys", "created", [⟨"t_subtask_0", "s0", .created, none⟩]⟩)]⟩

/-- Concrete instance of the out-of-range clause of `c9_planner_amended`:
index 5 into the one-subtask task is rejected without mutation. -/
theorem c9_witness :
    assign_subtask c9WitnessState "t" 5 "a" = (c9WitnessState, false) :=
  c9_planner_amended.2.1 c9WitnessState "t" 5 "a"
    ⟨"d", "sys", "created", [⟨"t_subtask_0", "s0", .created, none⟩]⟩
    (by rfl) (by decide)

end CallAgent
